import Mathlib

/-!
Shallow embedding of the cooklang-store Repository/Cache/Storage core
(src/repository.rs, src/cache.rs, src/parser/mod.rs, src/storage/disk.rs).

Strings are modelled by Lean `String`; Rust byte positions coincide with
character positions on the ASCII inputs the claims use.  Machine words in the
SHA-256 implementation are `Nat` reduced modulo 2^32.  The external cooklang
parser (`parse_recipe` body) is an opaque validation gate, modelled as a
parameter of the environment, exactly as the specification treats it.
-/

set_option maxRecDepth 100000

namespace CooklangStore

/-! ## Basic character-list utilities (Rust `str` primitives) -/

/-- Test whether `pat` is an initial segment of `s` (used to model Rust
substring search). -/
def leadMatch : List Char → List Char → Bool
  | [], _ => true
  | _ :: _, [] => false
  | p :: ps, c :: cs => p == c && leadMatch ps cs

/-- Position (in characters) of the first occurrence of `pat` in `s`,
modelling Rust `str::find` for ASCII data. -/
def subPos (pat : List Char) : List Char → Option Nat
  | [] => if leadMatch pat [] then some 0 else none
  | c :: cs =>
    if leadMatch pat (c :: cs) then some 0
    else (subPos pat cs).map (· + 1)

/-- Model of Rust `str::split(sep)`: splits on every occurrence of the
separator, keeping empty pieces; the empty string yields one empty piece. -/
def splitChar (sep : Char) : List Char → List (List Char)
  | [] => [[]]
  | c :: rest =>
    match splitChar sep rest with
    | [] => [[]]
    | piece :: pieces =>
      if c = sep then [] :: piece :: pieces else (c :: piece) :: pieces

/-- Rust `str::split('/')` and friends, on `String`. -/
def rsSplit (s : String) (sep : Char) : List String :=
  (splitChar sep s.data).map String.mk

/-- Model of Rust slice `join(sep)` / iterator `collect::<Vec<_>>().join`. -/
def rsJoin (sep : String) : List String → String
  | [] => ""
  | [x] => x
  | x :: y :: xs => x ++ sep ++ rsJoin sep (y :: xs)

/-- Rust `str::trim` (ASCII whitespace), written over the character list so
the kernel can evaluate it. -/
def rustTrim (s : String) : String :=
  String.mk (((s.data.dropWhile Char.isWhitespace).reverse.dropWhile
    Char.isWhitespace).reverse)

/-- Rust `str::starts_with` over character lists. -/
def strStarts (s pat : String) : Bool := leadMatch pat.data s.data

/-- Rust `str::ends_with` over character lists. -/
def strEnds (s pat : String) : Bool := leadMatch pat.data.reverse s.data.reverse

/-- Drop the last `n` characters. -/
def strDropRightN (s : String) (n : Nat) : String :=
  String.mk (s.data.take (s.data.length - n))

/-- Drop the first `n` characters. -/
def strDropN (s : String) (n : Nat) : String := String.mk (s.data.drop n)

/-- Take the first `n` characters. -/
def strTakeN (s : String) (n : Nat) : String := String.mk (s.data.take n)

/-- Emptiness test over the character list. -/
def strIsEmpty (s : String) : Bool := s.data.isEmpty

/-! ## SHA-256 over `Nat` bytes (models the `sha2` crate used by
`generate_recipe_id` in src/cache.rs) -/

/-- Modulus for 32-bit words. -/
def M32 : Nat := 4294967296

/-- Addition modulo 2^32. -/
def add32 (a b : Nat) : Nat := (a + b) % M32

/-- Right rotation of a 32-bit word by `k`. -/
def rotr (k n : Nat) : Nat := ((n >>> k) ||| (n <<< (32 - k))) % M32

/-- UTF-8 encoding of one character as byte values (Rust hashes the UTF-8
bytes of the path string). -/
def charUtf8 (c : Char) : List Nat :=
  let n := c.toNat
  if n < 128 then [n]
  else if n < 2048 then [192 + n / 64, 128 + n % 64]
  else if n < 65536 then [224 + n / 4096, 128 + (n / 64) % 64, 128 + n % 64]
  else [240 + n / 262144, 128 + (n / 4096) % 64, 128 + (n / 64) % 64, 128 + n % 64]

/-- UTF-8 bytes of a string. -/
def utf8Bytes (s : String) : List Nat :=
  s.data.flatMap charUtf8

/-- Big-endian 64-bit byte decomposition. -/
def be64 (n : Nat) : List Nat :=
  [(n >>> 56) % 256, (n >>> 48) % 256, (n >>> 40) % 256, (n >>> 32) % 256,
   (n >>> 24) % 256, (n >>> 16) % 256, (n >>> 8) % 256, n % 256]

/-- Big-endian 32-bit byte decomposition. -/
def be32 (n : Nat) : List Nat :=
  [(n >>> 24) % 256, (n >>> 16) % 256, (n >>> 8) % 256, n % 256]

/-- SHA-256 padding: append 0x80, zeros to 56 mod 64, then the bit length. -/
def padBytes (msg : List Nat) : List Nat :=
  let len := msg.length
  let zeros := (119 - len % 64) % 64
  msg ++ [128] ++ List.replicate zeros 0 ++ be64 (len * 8)

/-- Group bytes into big-endian 32-bit words. -/
def toWords : List Nat → List Nat
  | b0 :: b1 :: b2 :: b3 :: rest =>
    (b0 * 16777216 + b1 * 65536 + b2 * 256 + b3) :: toWords rest
  | _ => []

/-- Split a byte list into 64-byte chunks (fuelled structural recursion; the
fuel `l.length` always suffices because each step consumes at least one
byte). -/
def chunks64Go : Nat → List Nat → List (List Nat)
  | 0, _ => []
  | _, [] => []
  | fuel + 1, b :: rest => (b :: rest).take 64 :: chunks64Go fuel ((b :: rest).drop 64)

/-- Split a byte list into 64-byte chunks. -/
def chunks64 (l : List Nat) : List (List Nat) := chunks64Go l.length l

/-- Fuelled binary search for the largest `x` with `pow x ≤ target`; the fuel
bound 200 covers every operand width used here. -/
def rootSearch (pow : Nat → Nat) (target : Nat) : Nat → Nat → Nat → Nat
  | 0, lo, _ => lo
  | fuel + 1, lo, hi =>
    if hi ≤ lo + 1 then lo
    else
      let mid := (lo + hi) / 2
      if pow mid ≤ target then rootSearch pow target fuel mid hi
      else rootSearch pow target fuel lo mid

/-- Integer square root. -/
def isqrt (n : Nat) : Nat := rootSearch (fun x => x * x) n 200 0 (n + 1)

/-- Integer cube root. -/
def icbrt (n : Nat) : Nat := rootSearch (fun x => x * x * x) n 200 0 (n + 1)

/-- The first 64 primes, from which FIPS 180-4 derives the SHA-256
constants. -/
def primes64 : List Nat :=
  [2, 3, 5, 7, 11, 13, 17, 19, 23, 29, 31, 37, 41, 43, 47, 53,
   59, 61, 67, 71, 73, 79, 83, 89, 97, 101, 103, 107, 109, 113, 127, 131,
   137, 139, 149, 151, 157, 163, 167, 173, 179, 181, 191, 193, 197, 199, 211, 223,
   227, 229, 233, 239, 241, 251, 257, 263, 269, 271, 277, 281, 283, 293, 307, 311]

/-- First 32 bits of the fractional part of the square root of a prime. -/
def initWord (p : Nat) : Nat := isqrt (p * 18446744073709551616) % M32

/-- First 32 bits of the fractional part of the cube root of a prime. -/
def kWord (p : Nat) : Nat := icbrt (p * 79228162514264337593543950336) % M32

/-- The SHA-256 round constants, derived from the cube roots of the first 64
primes as specified by FIPS 180-4. -/
def K256 : List Nat := primes64.map kWord

/-- One message-schedule extension step: append `w[t-16] + s0(w[t-15]) +
w[t-7] + s1(w[t-2])`. -/
def scheduleStep (w : List Nat) : List Nat :=
  let t := w.length
  let w15 := w.getD (t - 15) 0
  let w2 := w.getD (t - 2) 0
  let w16 := w.getD (t - 16) 0
  let w7 := w.getD (t - 7) 0
  let s0 := (rotr 7 w15) ^^^ (rotr 18 w15) ^^^ (w15 >>> 3)
  let s1 := (rotr 17 w2) ^^^ (rotr 19 w2) ^^^ (w2 >>> 10)
  w ++ [(w16 + s0 + w7 + s1) % M32]

/-- Extend the 16 message words of a chunk to the 64 schedule words. -/
def fullW (w16 : List Nat) : List Nat :=
  (List.range 48).foldl (fun w _ => scheduleStep w) w16

/-- The eight working variables of the SHA-256 compression function. -/
structure H8 where
  a : Nat
  b : Nat
  c : Nat
  d : Nat
  e : Nat
  f : Nat
  g : Nat
  h : Nat
deriving Repr, DecidableEq

/-- One compression round. -/
def compressStep (k w : Nat) (s : H8) : H8 :=
  let S1 := (rotr 6 s.e) ^^^ (rotr 11 s.e) ^^^ (rotr 25 s.e)
  let ch := (s.e &&& s.f) ^^^ ((s.e ^^^ 4294967295) &&& s.g)
  let temp1 := (s.h + S1 + ch + k + w) % M32
  let S0 := (rotr 2 s.a) ^^^ (rotr 13 s.a) ^^^ (rotr 22 s.a)
  let maj := (s.a &&& s.b) ^^^ (s.a &&& s.c) ^^^ (s.b &&& s.c)
  let temp2 := (S0 + maj) % M32
  ⟨(temp1 + temp2) % M32, s.a, s.b, s.c, (s.d + temp1) % M32, s.e, s.f, s.g⟩

/-- Compress one 64-byte chunk into the running hash state. -/
def compressChunk (hh : H8) (chunk : List Nat) : H8 :=
  let w := fullW (toWords chunk)
  let s := (K256.zip w).foldl (fun s kw => compressStep kw.1 kw.2 s) hh
  ⟨add32 hh.a s.a, add32 hh.b s.b, add32 hh.c s.c, add32 hh.d s.d,
   add32 hh.e s.e, add32 hh.f s.f, add32 hh.g s.g, add32 hh.h s.h⟩

/-- The SHA-256 initial hash value, derived from the square roots of the
first eight primes as specified by FIPS 180-4. -/
def sha256Init : H8 :=
  ⟨initWord 2, initWord 3, initWord 5, initWord 7,
   initWord 11, initWord 13, initWord 17, initWord 19⟩

/-- Full SHA-256 digest (32 byte values) of a byte list. -/
def sha256bytes (msg : List Nat) : List Nat :=
  let hh := (chunks64 (padBytes msg)).foldl compressChunk sha256Init
  be32 hh.a ++ be32 hh.b ++ be32 hh.c ++ be32 hh.d ++
  be32 hh.e ++ be32 hh.f ++ be32 hh.g ++ be32 hh.h

/-- Lower-case hexadecimal digit. -/
def hexDigit (n : Nat) : Char :=
  if n < 10 then Char.ofNat (48 + n) else Char.ofNat (87 + n)

/-- Lower-case hexadecimal rendering of a byte list (Rust `format` with the
tag x on the digest array). -/
def bytesToHex (bs : List Nat) : String :=
  String.mk (bs.flatMap (fun b => [hexDigit (b / 16), hexDigit (b % 16)]))

/-- src/cache.rs `generate_recipe_id`: first 12 hexadecimal characters of the
SHA-256 hash of the git path. -/
def generate_recipe_id (git_path : String) : String :=
  strTakeN (bytesToHex (sha256bytes (utf8Bytes git_path))) 12

theorem sha256_empty_vector :
    bytesToHex (sha256bytes (utf8Bytes "")) =
      "e3b0c44298fc1c149afbf4c8996fb92427ae41e4649b934ca495991b7852b855" := by
  decide

theorem sha256_abc_vector :
    bytesToHex (sha256bytes (utf8Bytes "abc")) =
      "ba7816bf8f01cfea414140de5dae2223b00361a396177a9cb410ff61f20015ad" := by
  decide

/-! ## src/parser/mod.rs — filename generation, title extraction, rename test -/

/-- Rust `to_lowercase` on the ASCII range (all inputs used by the claims are
ASCII). -/
def rustLower (s : String) : String := String.mk (s.data.map Char.toLower)

/-- Whether the string contains two adjacent hyphens (Rust
`filename.contains(hyphen-hyphen)`). -/
def containsDoubleHyphen : List Char → Bool
  | '-' :: '-' :: _ => true
  | _ :: rest => containsDoubleHyphen rest
  | [] => false

/-- One pass of Rust `str::replace` specialised to the double-hyphen pattern:
replaces non-overlapping occurrences left to right. -/
def replaceDoubleHyphen : List Char → List Char
  | '-' :: '-' :: rest => '-' :: replaceDoubleHyphen rest
  | c :: rest => c :: replaceDoubleHyphen rest
  | [] => []

/-- The `while contains` loop of `generate_filename`; each pass shortens the
string, so fuel equal to the length always suffices. -/
def collapseLoop : Nat → List Char → List Char
  | 0, s => s
  | fuel + 1, s =>
    if containsDoubleHyphen s then collapseLoop fuel (replaceDoubleHyphen s) else s

/-- Rust `trim_matches(hyphen)`: drop leading and trailing hyphens. -/
def trimMatchesHyphen (s : List Char) : List Char :=
  ((s.dropWhile (· == '-')).reverse.dropWhile (· == '-')).reverse

/-- src/parser/mod.rs `generate_filename`: lowercase, keep alphanumerics,
hyphens and dots, map everything else to hyphens, collapse double hyphens,
trim hyphens, append the extension. -/
def generate_filename (title : String) : String :=
  let lowered := rustLower title
  let mapped := lowered.data.map (fun c =>
    if c.isAlphanum || c == '-' || c == '.' then c
    else if c.isWhitespace then '-' else '-')
  let collapsed := collapseLoop mapped.length mapped
  String.mk (trimMatchesHyphen collapsed) ++ ".cook"

/-- src/parser/mod.rs `should_rename_file`: rename when the filename generated
from the new title differs from the old filename. -/
def should_rename_file (old_filename : String) (new_title : String) : Bool :=
  generate_filename new_title != old_filename

/-- Rust `strip_suffix(ext).unwrap_or(filename)` for the fixed `.cook`
extension, as used in the collision loops of src/repository.rs. -/
def stripCook (filename : String) : String :=
  if strEnds filename ".cook" then strDropRightN filename 5 else filename

/-- The single-quote character, written by code point to keep the source
free of bare apostrophes. -/
def squoteStr : String := String.mk [Char.ofNat 39]

/-- Strip one layer of matching single or double quotes from a scalar value. -/
def unquote (v : String) : String :=
  if v.data.length ≥ 2 && strStarts v "\"" && strEnds v "\"" then
    strDropRightN (strDropN v 1) 1
  else if v.data.length ≥ 2 && strStarts v squoteStr && strEnds v squoteStr then
    strDropRightN (strDropN v 1) 1
  else v

/-- Split one front-matter line at the first colon into trimmed key and
value. -/
def splitKV (line : String) : Option (String × String) :=
  match subPos [':'] line.data with
  | none => none
  | some i => some (rustTrim (String.mk (line.data.take i)),
                    rustTrim (String.mk (line.data.drop (i + 1))))

/-- Modelled from the spec: the `serde_yaml::from_str` call inside
`extract_recipe_title` is an external library, absent from src/.  Per §6 of
the spec the metadata block holds `key: value` pairs with case-insensitive
keys and values optionally wrapped in matching single or double quotes; blank
lines and `#` comment lines are permitted.  A value `none` models a YAML null
(an empty value), mirroring the `as_str` failure branch of the source; a line
without a colon models a YAML parse failure (`none` overall). -/
def yamlMapping (front : String) : Option (List (String × Option String)) :=
  let lines := (rsSplit front '\n').filter
    (fun l => !(strIsEmpty (rustTrim l)) && !(strStarts (rustTrim l) "#"))
  (lines.mapM splitKV).map
    (List.map (fun kv => (kv.1, if strIsEmpty kv.2 then none else some (unquote kv.2))))

/-- src/parser/mod.rs `extract_recipe_title`: trims the content, demands a
leading front-matter delimiter and a closing one, parses the block as a
mapping, finds the case-insensitive `title` key, and demands a non-empty
string value. -/
def extract_recipe_title (content : String) : Except String String :=
  let trimmed := rustTrim content
  if strIsEmpty trimmed then .error "Content is empty"
  else if !(strStarts trimmed "---") then
    .error "Missing YAML front matter: content must start with ---"
  else
    let remaining := String.mk (trimmed.data.drop 3)
    match subPos ['-', '-', '-'] remaining.data with
    | none => .error "Malformed YAML front matter: missing closing --- delimiter"
    | some pos =>
      let front := rustTrim (String.mk (remaining.data.take pos))
      match yamlMapping front with
      | none => .error "Invalid YAML front matter"
      | some mapping =>
        match mapping.find? (fun kv => rustLower kv.1 == "title") with
        | none =>
          .error "Title field not found in YAML front matter. Expected format: title: Recipe Name"
        | some kv =>
          match kv.2 with
          | none => .error "Title field must be a string"
          | some v =>
            let title := rustTrim v
            if strIsEmpty title then .error "Title field is empty in YAML front matter"
            else .ok title

/-! ## Path helpers of src/repository.rs -/

/-- src/repository.rs `extract_filename_from_path`: last `/`-separated
segment. -/
def extract_filename_from_path (git_path : String) : String :=
  ((rsSplit git_path '/').getLast?).getD ""

/-- src/repository.rs `extract_category_from_path`: all segments strictly
between the fixed `recipes` root and the filename, joined by `/`; `none` when
there are no such segments. -/
def extract_category_from_path (git_path : String) : Option String :=
  let parts := rsSplit git_path '/'
  if parts.length ≥ 3 && parts.headD "" == "recipes" then
    let category_parts := (parts.drop 1).dropLast
    if !category_parts.isEmpty then some (rsJoin "/" category_parts) else none
  else none

/-- Capitalise the first character of a word (Rust `to_uppercase` on ASCII). -/
def capitalizeWord (w : List Char) : String :=
  match w with
  | [] => ""
  | c :: cs => String.mk (c.toUpper :: cs)

/-- Rust `split_whitespace`: whitespace-separated words, no empties. -/
def wordsAux : List Char → List Char → List (List Char)
  | [], acc => if acc.isEmpty then [] else [acc.reverse]
  | c :: cs, acc =>
    if c.isWhitespace then
      if acc.isEmpty then wordsAux cs [] else acc.reverse :: wordsAux cs []
    else wordsAux cs (c :: acc)

/-- src/repository.rs `path_to_name`: filename without extension, hyphens to
spaces, each word capitalised, joined by spaces. -/
def path_to_name (git_path : String) : String :=
  let base :=
    match (rsSplit git_path '/').getLast? with
    | some f => if strEnds f ".cook" then some (strDropRightN f 5) else none
    | none => none
  let base := base.getD ""
  let replaced := base.data.map (fun c => if c == '-' then ' ' else c)
  rsJoin " " ((wordsAux replaced []).map capitalizeWord)

theorem generate_filename_example :
    generate_filename "Dark Chocolate & Vanilla Cake" = "dark-chocolate-vanilla-cake.cook" := by
  decide

theorem extract_title_example :
    extract_recipe_title "---\ntitle: Chocolate Cake\n---\n\nRecipe content" =
      .ok "Chocolate Cake" := by
  rfl

theorem extract_category_example :
    extract_category_from_path "recipes/meals/meat/traditional/chicken-biryani.cook" =
      some "meals/meat/traditional" := by
  decide

theorem path_to_name_example :
    path_to_name "recipes/desserts/chocolate-cake.cook" = "Chocolate Cake" := by
  decide

theorem recipe_id_collision_pair :
    generate_recipe_id "recipes/t4701111.cook" = "22daed6d7625" ∧
    generate_recipe_id "recipes/t25345689.cook" = "22daed6d7625" := by
  constructor <;> decide

/-! ## Error taxonomy, mutation events, records -/

/-- Error classes of §7 of the specification; the source raises them as
`anyhow` errors with the recorded message. -/
inductive Err where
  | notFound (msg : String)
  | validation (msg : String)
  | ioErr (msg : String)
deriving Repr, DecidableEq

/-- Durable-storage and index mutations, recorded in program order so that
temporal claims about a single operation can be stated. -/
inductive Event where
  | storageWrite (path : String)
  | storageDelete (path : String)
  | indexRemove (path : String)
  | indexInsert (path : String)
deriving Repr, DecidableEq

/-- src/cache.rs `CachedRecipe`.  The external `ScalableRecipe` parse result
is opaque to this subsystem and is modelled by `Unit`. -/
structure CachedRecipe where
  recipe_id : String
  git_path : String
  name : String
  description : Option String
  category : Option String
  recipe : Unit
deriving Repr, DecidableEq

/-- src/repository.rs `Recipe` (API/display form). -/
structure Recipe where
  git_path : String
  file_name : String
  name : String
  description : Option String
  category : Option String
  content : String
deriving Repr, DecidableEq

/-! ## src/storage/disk.rs — DiskStorage as a path-keyed map -/

/-- The durable file system, modelled as an association list from relative
path strings to file contents. -/
structure DiskStorage where
  files : List (String × String)
deriving Repr, DecidableEq

/-- `write_file`: replaces any existing file at that path. -/
def DiskStorage.write_file (st : DiskStorage) (rel_path content : String) : DiskStorage :=
  ⟨(rel_path, content) :: st.files.filter (fun f => f.1 != rel_path)⟩

/-- `read_file`: fails when the path is absent. -/
def DiskStorage.read_file (st : DiskStorage) (rel_path : String) : Except String String :=
  match st.files.find? (fun f => f.1 == rel_path) with
  | some f => .ok f.2
  | none => .error ("Failed to read file: " ++ rel_path)

/-- `delete_file`: removes the file when present, succeeds silently
otherwise. -/
def DiskStorage.delete_file (st : DiskStorage) (rel_path : String) : DiskStorage :=
  ⟨st.files.filter (fun f => f.1 != rel_path)⟩

/-- `discover_files`: every stored path with the `.cook` extension (walk
order is unspecified by the contract; the model uses the map order). -/
def DiskStorage.discover_files (st : DiskStorage) : List String :=
  (st.files.map Prod.fst).filter (fun p => strEnds p ".cook")

/-! ## src/cache.rs — RecipeIndex -/

/-- The in-memory index: the forward path-to-record map and the reverse
id-to-path map (both `DashMap`s in the source, modelled as association
lists with overwrite-on-insert semantics). -/
structure RecipeIndex where
  recipes : List (String × CachedRecipe)
  id_to_path : List (String × String)
deriving Repr, DecidableEq

/-- `insert`: unconditional overwrite at the path key and at the id key. -/
def RecipeIndex.insert (idx : RecipeIndex) (git_path : String) (recipe : CachedRecipe) :
    RecipeIndex :=
  ⟨(git_path, recipe) :: idx.recipes.filter (fun pr => pr.1 != git_path),
   (recipe.recipe_id, git_path) :: idx.id_to_path.filter (fun pr => pr.1 != recipe.recipe_id)⟩

/-- `get`: point lookup by path. -/
def RecipeIndex.get (idx : RecipeIndex) (git_path : String) : Option CachedRecipe :=
  (idx.recipes.find? (fun pr => pr.1 == git_path)).map Prod.snd

/-- `get_git_path`: point lookup by external id. -/
def RecipeIndex.get_git_path (idx : RecipeIndex) (recipe_id : String) : Option String :=
  (idx.id_to_path.find? (fun pr => pr.1 == recipe_id)).map Prod.snd

/-- `remove`: removes the forward entry and the reverse entry keyed by the
removed record's id; returns what was removed. -/
def RecipeIndex.remove (idx : RecipeIndex) (git_path : String) :
    Option CachedRecipe × RecipeIndex :=
  match (idx.recipes.find? (fun pr => pr.1 == git_path)).map Prod.snd with
  | some recipe =>
    (some recipe,
     ⟨idx.recipes.filter (fun pr => pr.1 != git_path),
      idx.id_to_path.filter (fun pr => pr.1 != recipe.recipe_id)⟩)
  | none => (none, idx)

/-- `get_all`: snapshot of all records. -/
def RecipeIndex.get_all (idx : RecipeIndex) : List CachedRecipe :=
  idx.recipes.map Prod.snd

/-- `clear`: empties both mappings. -/
def RecipeIndex.clear (_idx : RecipeIndex) : RecipeIndex := ⟨[], []⟩

/-! ## src/repository.rs — RecipeRepository -/

/-- The environment holds the external cooklang parser, treated as an opaque
validation gate exactly as the specification prescribes. -/
structure Env where
  parse_recipe : String → String → Except String Unit

/-- Orchestrating state: in-memory index plus durable storage (disk
backend). -/
structure RecipeRepository where
  cache : RecipeIndex
  storage : DiskStorage
deriving Repr, DecidableEq

/-- The repository with empty cache over empty storage. -/
def emptyRepo : RecipeRepository := ⟨⟨[], []⟩, ⟨[]⟩⟩

/-- Compose the candidate path from category and filename, as in
`generate_git_path_from_filename`. -/
def candidatePath (category : Option String) (filename : String) : String :=
  match category with
  | some cat => "recipes/" ++ cat ++ "/" ++ filename
  | none => "recipes/" ++ filename

/-- The collision-resolution `while` loop of `generate_git_path_from_filename`:
successive candidates carry `-2`, `-3`, … before the extension.  The loop is
fuelled; distinct counters give distinct candidate paths, so fuel exceeding
the (finite) index size always reaches a free path. -/
def pathLoop (cache : RecipeIndex) (filename : String) (category : Option String) :
    Nat → Nat → String → String
  | 0, _, path => path
  | fuel + 1, counter, path =>
    if (cache.get path).isSome then
      let base := stripCook filename
      let new_filename := base ++ "-" ++ toString counter ++ ".cook"
      pathLoop cache filename category fuel (counter + 1) (candidatePath category new_filename)
    else path

/-- src/repository.rs `generate_git_path_from_filename`. -/
def generate_git_path_from_filename (cache : RecipeIndex) (filename : String)
    (category : Option String) : String :=
  pathLoop cache filename category (cache.recipes.length + 2) 2 (candidatePath category filename)

/-- src/repository.rs `create_with_author_and_comment` (author and comment do
not affect the disk backend; the `name` argument is unused by the source).
Returns the result, the post state, and the ordered mutation trace. -/
def create_with_author_and_comment (env : Env) (repo : RecipeRepository)
    (content : String) (category : Option String) :
    Except Err Recipe × RecipeRepository × List Event :=
  match extract_recipe_title content with
  | .error e => (.error (.validation ("Invalid recipe content: " ++ e)), repo, [])
  | .ok recipe_title =>
    match env.parse_recipe content recipe_title with
    | .error e => (.error (.validation ("Failed to parse recipe: " ++ e)), repo, [])
    | .ok _ =>
      let filename := generate_filename recipe_title
      let git_path := generate_git_path_from_filename repo.cache filename category
      let storage1 := repo.storage.write_file git_path content
      match env.parse_recipe content recipe_title with
      | .error e =>
        (.error (.validation ("Failed to parse recipe: " ++ e)),
         { repo with storage := storage1 }, [Event.storageWrite git_path])
      | .ok _ =>
        let recipe_id := generate_recipe_id git_path
        let cached : CachedRecipe := ⟨recipe_id, git_path, recipe_title, none, category, ()⟩
        let cache1 := repo.cache.insert git_path cached
        (.ok ⟨git_path, filename, recipe_title, none, category, content⟩,
         ⟨cache1, storage1⟩, [Event.storageWrite git_path, Event.indexInsert git_path])

/-- src/repository.rs `read`: index lookup, then re-read of the raw content
from storage. -/
def RecipeRepository.read (repo : RecipeRepository) (git_path : String) :
    Except Err Recipe × RecipeRepository × List Event :=
  match repo.cache.get git_path with
  | none => (.error (.notFound ("Recipe not found: " ++ git_path)), repo, [])
  | some cached =>
    match repo.storage.read_file git_path with
    | .error e => (.error (.ioErr e), repo, [])
    | .ok content =>
      (.ok ⟨cached.git_path, extract_filename_from_path git_path, cached.name,
            cached.description, cached.category, content⟩, repo, [])

/-- src/repository.rs `update_with_author_and_comment`: title priority is
new content, then the name argument, then the cached title; rename when the
generated filename or the effective category differs; on rename the write to
the new path precedes the delete of the old, which precede the index
update. -/
def update_with_author_and_comment (env : Env) (repo : RecipeRepository)
    (git_path : String) (name : Option String) (content : Option String)
    (category : Option (Option String)) :
    Except Err Recipe × RecipeRepository × List Event :=
  match repo.cache.get git_path with
  | none => (.error (.notFound ("Recipe not found: " ++ git_path)), repo, [])
  | some current =>
    match repo.storage.read_file git_path with
    | .error e => (.error (.ioErr e), repo, [])
    | .ok current_content =>
      match (match content with
             | some c => extract_recipe_title c
             | none => .ok (name.getD current.name)) with
      | .error e => (.error (.validation ("Invalid recipe content: " ++ e)), repo, [])
      | .ok new_title =>
        let new_category : Option String :=
          match category with
          | some (some c) => some c
          | _ => current.category
        match (match content with
               | some c => env.parse_recipe c new_title
               | none => .ok ()) with
        | .error e => (.error (.validation ("Failed to parse recipe: " ++ e)), repo, [])
        | .ok _ =>
          let old_filename := extract_filename_from_path git_path
          let new_filename := generate_filename new_title
          let filename_changed := should_rename_file old_filename new_title
          let category_changed := new_category != current.category
          let new_git_path :=
            if filename_changed || category_changed then
              generate_git_path_from_filename repo.cache new_filename new_category
            else git_path
          let write_needed := content.isSome || new_git_path != git_path
          let storage1 :=
            if write_needed then
              let st := repo.storage.write_file new_git_path (content.getD current_content)
              if new_git_path != git_path then st.delete_file git_path else st
            else repo.storage
          let evs1 : List Event :=
            if write_needed then
              if new_git_path != git_path then
                [Event.storageWrite new_git_path, Event.storageDelete git_path]
              else [Event.storageWrite new_git_path]
            else []
          match storage1.read_file new_git_path with
          | .error e => (.error (.ioErr e), { repo with storage := storage1 }, evs1)
          | .ok file_content =>
            match env.parse_recipe file_content new_title with
            | .error e =>
              (.error (.validation ("Failed to parse recipe: " ++ e)),
               { repo with storage := storage1 }, evs1)
            | .ok _ =>
              let cache1 :=
                if new_git_path != git_path then (repo.cache.remove git_path).2 else repo.cache
              let evs2 : List Event :=
                if new_git_path != git_path then [Event.indexRemove git_path] else []
              let recipe_id := generate_recipe_id new_git_path
              let cached : CachedRecipe :=
                ⟨recipe_id, new_git_path, new_title, none, new_category, ()⟩
              let cache2 := cache1.insert new_git_path cached
              (.ok ⟨new_git_path, new_filename, new_title, none, new_category, file_content⟩,
               ⟨cache2, storage1⟩, evs1 ++ evs2 ++ [Event.indexInsert new_git_path])

/-- src/repository.rs `delete_with_author_and_comment`: existence check in
the index, storage delete, then index removal. -/
def delete_with_author_and_comment (repo : RecipeRepository) (git_path : String) :
    Except Err Unit × RecipeRepository × List Event :=
  match repo.cache.get git_path with
  | none => (.error (.notFound ("Recipe not found: " ++ git_path)), repo, [])
  | some _ =>
    let storage1 := repo.storage.delete_file git_path
    let cache1 := (repo.cache.remove git_path).2
    (.ok (), ⟨cache1, storage1⟩,
     [Event.storageDelete git_path, Event.indexRemove git_path])

/-- The per-file body of `rebuild_from_storage`: read, derive category,
extract the title with the path-derived fallback, parse; insert on success,
skip on failure. -/
def rebuildStep (env : Env) (storage : DiskStorage) (cache : RecipeIndex)
    (git_path : String) : RecipeIndex :=
  match storage.read_file git_path with
  | .error _ => cache
  | .ok content =>
    let category := extract_category_from_path git_path
    let recipe_name :=
      match extract_recipe_title content with
      | .ok title => title
      | .error _ => path_to_name git_path
    match env.parse_recipe content recipe_name with
    | .ok _ =>
      cache.insert git_path
        ⟨generate_recipe_id git_path, git_path, recipe_name, none, category, ()⟩
    | .error _ => cache

/-- src/repository.rs `rebuild_from_storage`: clear the index, discover the
stored documents, and replay each one; per-file failures are skipped. -/
def rebuild_from_storage (env : Env) (repo : RecipeRepository) :
    Except Err Unit × RecipeRepository × List Event :=
  let cache0 := repo.cache.clear
  let cook_files := repo.storage.discover_files
  let cacheF := cook_files.foldl (rebuildStep env repo.storage) cache0
  (.ok (), ⟨cacheF, repo.storage⟩, [])

/-- A parser environment that accepts every document (cooklang accepts plain
text); used to instantiate witnesses. -/
def envAccept : Env := ⟨fun _ _ => .ok ()⟩

theorem create_concrete_example :
    (create_with_author_and_comment envAccept emptyRepo
      "---\ntitle: Simple Recipe\n---\n\nMix ingredients together." none).1 =
    .ok ⟨"recipes/simple-recipe.cook", "simple-recipe.cook", "Simple Recipe",
         none, none, "---\ntitle: Simple Recipe\n---\n\nMix ingredients together."⟩ := by
  rfl

/-! ## Map lemmas for the association-list model -/

theorem find?_filter_ne {α : Type} (l : List (String × α)) (p q : String) (h : q ≠ p) :
    List.find? (fun pr => pr.1 == q) (l.filter (fun pr => pr.1 != p)) =
      List.find? (fun pr => pr.1 == q) l := by
  have hpq : (p == q) = false := beq_eq_false_iff_ne.mpr (fun hh => h hh.symm)
  induction l with
  | nil => rfl
  | cons a l ih =>
    by_cases hq : a.1 = q
    · subst hq
      have hp : (a.1 != p) = true := by simp [bne_iff_ne, h]
      simp [List.filter_cons, hp, List.find?_cons]
    · have hq2 : (a.1 == q) = false := by simp [hq]
      by_cases hp : a.1 = p
      · simp [List.filter_cons, List.find?_cons, hp, hpq, ih]
      · have hp2 : (a.1 != p) = true := by simp [bne_iff_ne, hp]
        simp [List.filter_cons, hp2, List.find?_cons, hq2, ih]

theorem get_insert_self (idx : RecipeIndex) (p : String) (rec : CachedRecipe) :
    (idx.insert p rec).get p = some rec := by
  simp [RecipeIndex.insert, RecipeIndex.get, List.find?_cons]

theorem get_insert_ne (idx : RecipeIndex) (p q : String) (rec : CachedRecipe)
    (h : q ≠ p) : (idx.insert p rec).get q = idx.get q := by
  have hq : (p == q) = false := beq_eq_false_iff_ne.mpr (fun hh => h hh.symm)
  simp [RecipeIndex.insert, RecipeIndex.get, List.find?_cons, hq,
        find?_filter_ne idx.recipes p q h]

theorem read_write_self (st : DiskStorage) (p c : String) :
    (st.write_file p c).read_file p = .ok c := by
  simp [DiskStorage.write_file, DiskStorage.read_file, List.find?_cons]

/-! ## Claim C6 — absent paths: read, update, delete all fail `NotFound` and
leave the state untouched -/

/-- Claim C6: for every path not present in the index, each of read, update
and delete on that path fails with a NotFound error and leaves both the
index and durable storage completely unchanged. -/
theorem claim_c6_notfound_read_update_delete (env : Env) (repo : RecipeRepository)
    (p : String) (nm : Option String) (content : Option String)
    (category : Option (Option String)) (h : repo.cache.get p = none) :
    repo.read p = (.error (.notFound ("Recipe not found: " ++ p)), repo, []) ∧
    update_with_author_and_comment env repo p nm content category =
      (.error (.notFound ("Recipe not found: " ++ p)), repo, []) ∧
    delete_with_author_and_comment repo p =
      (.error (.notFound ("Recipe not found: " ++ p)), repo, []) := by
  refine ⟨?_, ?_, ?_⟩ <;>
    simp [RecipeRepository.read, update_with_author_and_comment,
          delete_with_author_and_comment, h]

theorem claim_c6_witness :
    RecipeRepository.read emptyRepo "recipes/missing.cook" =
      (.error (.notFound "Recipe not found: recipes/missing.cook"), emptyRepo, []) ∧
    update_with_author_and_comment envAccept emptyRepo "recipes/missing.cook"
        none none none =
      (.error (.notFound "Recipe not found: recipes/missing.cook"), emptyRepo, []) ∧
    delete_with_author_and_comment emptyRepo "recipes/missing.cook" =
      (.error (.notFound "Recipe not found: recipes/missing.cook"), emptyRepo, []) :=
  claim_c6_notfound_read_update_delete envAccept emptyRepo "recipes/missing.cook"
    none none none rfl

/-! ## Claim C7 — validation failures in create happen before any durable
mutation -/

/-- Claim C7: whenever title extraction fails (missing or malformed metadata
block, missing or empty title) or the structural parse rejects the content,
create returns a ValidationError, no storage write occurs, and the index is
unchanged. -/
theorem claim_c7_create_validation_no_mutation (env : Env) (repo : RecipeRepository)
    (content : String) (category : Option String)
    (h : (∃ e, extract_recipe_title content = .error e) ∨
         (∃ t e, extract_recipe_title content = .ok t ∧
                 env.parse_recipe content t = .error e)) :
    ∃ msg, create_with_author_and_comment env repo content category =
      (.error (.validation msg), repo, []) := by
  rcases h with ⟨e, he⟩ | ⟨t, e, ht, hp⟩
  · exact ⟨"Invalid recipe content: " ++ e, by simp [create_with_author_and_comment, he]⟩
  · exact ⟨"Failed to parse recipe: " ++ e, by simp [create_with_author_and_comment, ht, hp]⟩

theorem claim_c7_witness :
    ∃ msg, create_with_author_and_comment envAccept emptyRepo
      "No front matter here" (some "desserts") =
      (.error (.validation msg), emptyRepo, []) :=
  claim_c7_create_validation_no_mutation envAccept emptyRepo
    "No front matter here" (some "desserts")
    (.inl ⟨"Missing YAML front matter: content must start with ---", rfl⟩)

/-! ## Claim C3 — create/read round trip -/

/-- Claim C3: a document successfully created with content `C` reads back
(at the created record's path, with no intervening mutation) with content
exactly `C`. -/
theorem claim_c3_create_read_roundtrip (env : Env) (repo : RecipeRepository)
    (content : String) (category : Option String) (r : Recipe)
    (repo1 : RecipeRepository) (evs : List Event)
    (h : create_with_author_and_comment env repo content category = (.ok r, repo1, evs)) :
    ∃ r2, repo1.read r.git_path = (.ok r2, repo1, []) ∧ r2.content = content := by
  simp only [create_with_author_and_comment] at h
  split at h
  · simp at h
  · split at h
    · simp at h
    · split at h
      · simp at h
      · rename_i x2 t1 hx2 x1 u1 hu1 x0 u0 hu0
        simp only [Prod.mk.injEq, Except.ok.injEq] at h
        obtain ⟨h1, h2, _h3⟩ := h
        subst h1
        subst h2
        refine ⟨⟨generate_git_path_from_filename repo.cache (generate_filename t1) category,
                 extract_filename_from_path
                   (generate_git_path_from_filename repo.cache (generate_filename t1) category),
                 t1, none, category, content⟩, ?_, rfl⟩
        simp [RecipeRepository.read, get_insert_self, read_write_self]

theorem claim_c3_witness :
    ∃ r2, RecipeRepository.read
        (create_with_author_and_comment envAccept emptyRepo
          "---\ntitle: Simple Recipe\n---\n\nMix ingredients together." none).2.1
        "recipes/simple-recipe.cook" =
        (.ok r2,
         (create_with_author_and_comment envAccept emptyRepo
           "---\ntitle: Simple Recipe\n---\n\nMix ingredients together." none).2.1, []) ∧
      r2.content = "---\ntitle: Simple Recipe\n---\n\nMix ingredients together." :=
  claim_c3_create_read_roundtrip envAccept emptyRepo
    "---\ntitle: Simple Recipe\n---\n\nMix ingredients together." none
    ⟨"recipes/simple-recipe.cook", "simple-recipe.cook", "Simple Recipe",
     none, none, "---\ntitle: Simple Recipe\n---\n\nMix ingredients together."⟩
    (create_with_author_and_comment envAccept emptyRepo
      "---\ntitle: Simple Recipe\n---\n\nMix ingredients together." none).2.1
    [Event.storageWrite "recipes/simple-recipe.cook",
     Event.indexInsert "recipes/simple-recipe.cook"]
    rfl

/-! ## Claim C1 — rename ordering inside update -/

/-- Claim C1: a successful update whose target path differs from the source
path performs, in order, the storage write to the new path, the storage
delete of the old path, the index removal of the old entry, and the index
insertion of the new entry. -/
theorem claim_c1_rename_ordering (env : Env) (repo : RecipeRepository)
    (git_path : String) (nm : Option String) (content : Option String)
    (category : Option (Option String)) (r : Recipe) (repo1 : RecipeRepository)
    (evs : List Event)
    (h : update_with_author_and_comment env repo git_path nm content category =
      (.ok r, repo1, evs))
    (hr : r.git_path ≠ git_path) :
    evs = [Event.storageWrite r.git_path, Event.storageDelete git_path,
           Event.indexRemove git_path, Event.indexInsert r.git_path] := by
  simp only [update_with_author_and_comment] at h
  split at h
  · simp at h
  · split at h
    · simp at h
    · split at h
      · simp at h
      · split at h
        · simp at h
        · split at h
          · simp at h
          · split at h
            · simp at h
            · simp only [Prod.mk.injEq, Except.ok.injEq] at h
              obtain ⟨h1, _h2, h3⟩ := h
              subst h1
              subst h3
              simp at hr
              simp [hr]

theorem claim_c1_witness :
    (update_with_author_and_comment envAccept
      (create_with_author_and_comment envAccept emptyRepo
        "---\ntitle: Alpha\n---\nBody." none).2.1
      "recipes/alpha.cook" (some "Bravo") none none).2.2 =
    [Event.storageWrite "recipes/bravo.cook", Event.storageDelete "recipes/alpha.cook",
     Event.indexRemove "recipes/alpha.cook", Event.indexInsert "recipes/bravo.cook"] :=
  claim_c1_rename_ordering envAccept
    (create_with_author_and_comment envAccept emptyRepo
      "---\ntitle: Alpha\n---\nBody." none).2.1
    "recipes/alpha.cook" (some "Bravo") none none
    ⟨"recipes/bravo.cook", "bravo.cook", "Bravo", none, none, "---\ntitle: Alpha\n---\nBody."⟩
    (update_with_author_and_comment envAccept
      (create_with_author_and_comment envAccept emptyRepo
        "---\ntitle: Alpha\n---\nBody." none).2.1
      "recipes/alpha.cook" (some "Bravo") none none).2.1
    (update_with_author_and_comment envAccept
      (create_with_author_and_comment envAccept emptyRepo
        "---\ntitle: Alpha\n---\nBody." none).2.1
      "recipes/alpha.cook" (some "Bravo") none none).2.2
    rfl (by decide)

/-! ## Claim C9 — category derivation from canonical paths -/

/-- Character-level join with a single-character separator. -/
def joinCharList (sep : Char) : List (List Char) → List Char
  | [] => []
  | [x] => x
  | x :: y :: xs => x ++ sep :: joinCharList sep (y :: xs)

theorem splitChar_ne_nil (sep : Char) (l : List Char) : splitChar sep l ≠ [] := by
  cases l with
  | nil => simp [splitChar]
  | cons c rest =>
    cases h : splitChar sep rest with
    | nil => simp [splitChar, h]
    | cons piece pieces =>
      by_cases hc : c = sep <;> simp [splitChar, h, hc]

theorem splitChar_sep_cons (sep : Char) (l : List Char) :
    splitChar sep (sep :: l) = [] :: splitChar sep l := by
  cases h : splitChar sep l with
  | nil => exact absurd h (splitChar_ne_nil sep l)
  | cons piece pieces => simp [splitChar, h]

theorem splitChar_append_no_sep (sep : Char) (x : List Char) (hx : sep ∉ x) :
    ∀ (l p : List Char) (ps : List (List Char)), splitChar sep l = p :: ps →
      splitChar sep (x ++ l) = (x ++ p) :: ps := by
  induction x with
  | nil => intro l p ps h; simpa using h
  | cons c x ih =>
    intro l p ps h
    have hc : ¬(c = sep) := fun e => hx (by rw [← e]; exact List.mem_cons_self c x)
    have hrec := ih (fun hm => hx (List.mem_cons_of_mem c hm)) l p ps h
    simp [splitChar, hrec, hc]

theorem splitChar_joinCharList (sep : Char) :
    ∀ (pieces : List (List Char)), pieces ≠ [] → (∀ p ∈ pieces, sep ∉ p) →
      splitChar sep (joinCharList sep pieces) = pieces := by
  intro pieces
  induction pieces with
  | nil => intro h; cases h rfl
  | cons x xs ih =>
    intro _ hs
    cases xs with
    | nil =>
      have := splitChar_append_no_sep sep x (hs x (List.mem_cons_self x [])) [] [] [] rfl
      simpa [joinCharList] using this
    | cons y ys =>
      have hih : splitChar sep (joinCharList sep (y :: ys)) = y :: ys :=
        ih (by simp) (fun p hp => hs p (List.mem_cons_of_mem x hp))
      have hsep : splitChar sep (sep :: joinCharList sep (y :: ys)) =
          [] :: y :: ys := by rw [splitChar_sep_cons, hih]
      have := splitChar_append_no_sep sep x (hs x (List.mem_cons_self x _))
        (sep :: joinCharList sep (y :: ys)) [] (y :: ys) hsep
      simpa [joinCharList] using this

theorem strMk_data (s : String) : String.mk s.data = s := rfl

theorem rsJoin_data (segs : List String) :
    (rsJoin "/" segs).data = joinCharList '/' (segs.map String.data) := by
  induction segs with
  | nil => rfl
  | cons x xs ih =>
    cases xs with
    | nil => rfl
    | cons y ys =>
      show (x ++ "/" ++ rsJoin "/" (y :: ys)).data = _
      simp [joinCharList, ih]

theorem rsSplit_rsJoin (segs : List String) (h : segs ≠ [])
    (hs : ∀ s ∈ segs, ('/' : Char) ∉ s.data) :
    rsSplit (rsJoin "/" segs) '/' = segs := by
  have hmain := splitChar_joinCharList '/' (segs.map String.data)
    (by simpa using h)
    (by intro p hp
        obtain ⟨s, hsm, rfl⟩ := List.mem_map.mp hp
        exact hs s hsm)
  unfold rsSplit
  rw [rsJoin_data, hmain, List.map_map]
  exact List.map_id segs

theorem dropLast_append_singleton {α : Type} (l : List α) (a : α) :
    (l ++ [a]).dropLast = l := by
  induction l with
  | nil => rfl
  | cons x xs ih =>
    rw [List.cons_append, List.dropLast_cons_of_ne_nil (by simp), ih]

/-- Claim C9: on a canonical path whose segments are `/`-free, the derived
category is the `/`-join of all segments strictly between the `recipes` root
and the filename; no intermediate segments means no category. -/
theorem claim_c9_category_from_segments (cats : List String) (fname : String)
    (hc : ∀ s ∈ cats, ('/' : Char) ∉ s.data) (hf : ('/' : Char) ∉ fname.data) :
    extract_category_from_path (rsJoin "/" ("recipes" :: cats ++ [fname])) =
      if cats = [] then none else some (rsJoin "/" cats) := by
  have hsplit : rsSplit (rsJoin "/" ("recipes" :: cats ++ [fname])) '/' =
      "recipes" :: cats ++ [fname] := by
    apply rsSplit_rsJoin
    · simp
    · intro s hsm
      rcases List.mem_cons.mp hsm with rfl | hsm2
      · decide
      · rcases List.mem_append.mp hsm2 with hsc | hsf
        · exact hc s hsc
        · rw [List.mem_singleton.mp hsf]; exact hf
  unfold extract_category_from_path
  rw [hsplit]
  cases cats with
  | nil => simp
  | cons c cs =>
    have hlen : ("recipes" :: (c :: cs) ++ [fname]).length ≥ 3 := by
      simp
    have hdl : (c :: (cs ++ [fname])).dropLast = c :: cs := by
      rw [← List.cons_append]
      exact dropLast_append_singleton (c :: cs) fname
    simp [hlen, hdl]

theorem claim_c9_witness :
    extract_category_from_path (rsJoin "/" ("recipes" :: ["a", "b", "c"] ++ ["slug.cook"])) =
      if (["a", "b", "c"] : List String) = [] then none
      else some (rsJoin "/" ["a", "b", "c"]) :=
  claim_c9_category_from_segments ["a", "b", "c"] "slug.cook" (by decide) (by decide)

/-! ## String-append lemmas for the path algebra -/

theorem strData_append (a b : String) : (a ++ b).data = a.data ++ b.data := rfl

theorem strEq_of_data {a b : String} (h : a.data = b.data) : a = b := by
  cases a
  cases b
  cases h
  rfl

theorem strNe_of_len {a b : String} (h : a.data.length ≠ b.data.length) : a ≠ b :=
  fun e => h (by rw [e])

theorem leadMatch_append_self (p r : List Char) : leadMatch p (p ++ r) = true := by
  induction p with
  | nil => rfl
  | cons c p ih => simp [leadMatch, ih]

theorem strEnds_append_cook (b : String) : strEnds (b ++ ".cook") ".cook" = true := by
  unfold strEnds
  rw [strData_append, List.reverse_append]
  exact leadMatch_append_self _ _

theorem strDropRight_append_cook (b : String) : strDropRightN (b ++ ".cook") 5 = b := by
  unfold strDropRightN
  rw [strData_append]
  have hl : (b.data ++ (".cook" : String).data).length - 5 = b.data.length := by
    simp
  rw [hl, List.take_left]

theorem stripCook_append (b : String) : stripCook (b ++ ".cook") = b := by
  unfold stripCook
  rw [strEnds_append_cook]
  simp [strDropRight_append_cook]

theorem generate_filename_split (t : String) :
    ∃ b : String, generate_filename t = b ++ ".cook" :=
  ⟨_, rfl⟩

theorem candidatePath_pre (cat : Option String) :
    ∃ pre : String, ∀ g, candidatePath cat g = pre ++ g := by
  cases cat with
  | none => exact ⟨"recipes/", fun g => rfl⟩
  | some c =>
    refine ⟨"recipes/" ++ c ++ "/", fun g => ?_⟩
    apply strEq_of_data
    simp [candidatePath, strData_append]

theorem pathLoop_of_free (cache : RecipeIndex) (f : String) (cat : Option String)
    (fuel counter : Nat) (path : String) (h : cache.get path = none) :
    pathLoop cache f cat (fuel + 1) counter path = path := by
  simp [pathLoop, h]

theorem pathLoop_of_occupied (cache : RecipeIndex) (f : String) (cat : Option String)
    (fuel counter : Nat) (path : String) (rec : CachedRecipe)
    (h : cache.get path = some rec) :
    pathLoop cache f cat (fuel + 1) counter path =
      pathLoop cache f cat fuel (counter + 1)
        (candidatePath cat (stripCook f ++ "-" ++ toString counter ++ ".cook")) := by
  simp [pathLoop, h]

/-! ## Claim C2 — slug collision resolution appends `-2` -/

/-- Claim C2: two creates under the same category whose titles generate the
same filename both succeed, starting from a state where the base path and its
`-2` variant are free; the paths are distinct, and the second is the first
with `-2` inserted before the extension. -/
theorem claim_c2_collision_appends_suffix (env : Env) (repo : RecipeRepository)
    (c1 c2 : String) (category : Option String) (t1 t2 : String)
    (h1 : extract_recipe_title c1 = .ok t1) (h2 : extract_recipe_title c2 = .ok t2)
    (hp1 : env.parse_recipe c1 t1 = .ok ()) (hp2 : env.parse_recipe c2 t2 = .ok ())
    (hf : generate_filename t2 = generate_filename t1)
    (hfree1 : repo.cache.get (candidatePath category (generate_filename t1)) = none)
    (hfree2 : repo.cache.get
      (candidatePath category (stripCook (generate_filename t1) ++ "-2.cook")) = none) :
    ∃ r1 repo1 evs1 r2 repo2 evs2,
      create_with_author_and_comment env repo c1 category = (.ok r1, repo1, evs1) ∧
      create_with_author_and_comment env repo1 c2 category = (.ok r2, repo2, evs2) ∧
      r1.git_path = candidatePath category (generate_filename t1) ∧
      r2.git_path = stripCook r1.git_path ++ "-2.cook" ∧
      r1.git_path ≠ r2.git_path := by
  obtain ⟨b, hb⟩ := generate_filename_split t1
  obtain ⟨pre, hpre⟩ := candidatePath_pre category
  -- normal forms of the two candidate paths
  have hassoc : ∀ x y : String, pre ++ (x ++ y) = pre ++ x ++ y := by
    intro x y
    apply strEq_of_data
    simp [strData_append]
  have hstrip : stripCook (generate_filename t1) = b := by rw [hb]; exact stripCook_append b
  have hp1eq : candidatePath category (generate_filename t1) = (pre ++ b) ++ ".cook" := by
    rw [hpre, hb, hassoc]
  have hq : candidatePath category (stripCook (generate_filename t1) ++ "-2.cook") =
      (pre ++ b) ++ "-2.cook" := by
    rw [hpre, hstrip, hassoc]
  have hstrip2 : stripCook ((pre ++ b) ++ ".cook") = pre ++ b := stripCook_append _
  have hne : ((pre ++ b) ++ ".cook" : String) ≠ (pre ++ b) ++ "-2.cook" := by
    apply strNe_of_len
    simp [strData_append]
  -- the `-2` candidate as produced by one loop step
  have htwo : (toString (2 : Nat)) = "2" := rfl
  have hcand2 : ∀ f : String, stripCook f ++ "-" ++ toString 2 ++ ".cook" =
      stripCook f ++ "-2.cook" := by
    intro f
    apply strEq_of_data
    simp [strData_append, htwo]
  -- first create resolves the base candidate
  have hgen1 : generate_git_path_from_filename repo.cache (generate_filename t1) category =
      candidatePath category (generate_filename t1) := by
    unfold generate_git_path_from_filename
    exact pathLoop_of_free _ _ _ _ _ _ hfree1
  have hc1 : create_with_author_and_comment env repo c1 category =
      (.ok ⟨candidatePath category (generate_filename t1), generate_filename t1, t1,
            none, category, c1⟩,
       ⟨repo.cache.insert (candidatePath category (generate_filename t1))
          ⟨generate_recipe_id (candidatePath category (generate_filename t1)),
           candidatePath category (generate_filename t1), t1, none, category, ()⟩,
        repo.storage.write_file (candidatePath category (generate_filename t1)) c1⟩,
       [Event.storageWrite (candidatePath category (generate_filename t1)),
        Event.indexInsert (candidatePath category (generate_filename t1))]) := by
    simp only [create_with_author_and_comment, h1, hp1, hgen1]
  -- the second create steps once through the collision loop
  have hins : (repo.cache.insert (candidatePath category (generate_filename t1))
      ⟨generate_recipe_id (candidatePath category (generate_filename t1)),
       candidatePath category (generate_filename t1), t1, none, category, ()⟩).get
      (candidatePath category (generate_filename t1)) = some
      ⟨generate_recipe_id (candidatePath category (generate_filename t1)),
       candidatePath category (generate_filename t1), t1, none, category, ()⟩ :=
    get_insert_self _ _ _
  have hne2 : candidatePath category (stripCook (generate_filename t1) ++ "-2.cook") ≠
      candidatePath category (generate_filename t1) := by
    rw [hq, hp1eq]
    exact hne.symm
  have hget2 : (repo.cache.insert (candidatePath category (generate_filename t1))
      ⟨generate_recipe_id (candidatePath category (generate_filename t1)),
       candidatePath category (generate_filename t1), t1, none, category, ()⟩).get
      (candidatePath category (stripCook (generate_filename t1) ++ "-2.cook")) = none := by
    rw [get_insert_ne _ _ _ _ hne2]
    exact hfree2
  have hgen2 : generate_git_path_from_filename
      (repo.cache.insert (candidatePath category (generate_filename t1))
        ⟨generate_recipe_id (candidatePath category (generate_filename t1)),
         candidatePath category (generate_filename t1), t1, none, category, ()⟩)
      (generate_filename t2) category =
      candidatePath category (stripCook (generate_filename t1) ++ "-2.cook") := by
    unfold generate_git_path_from_filename
    rw [hf]
    refine Eq.trans (pathLoop_of_occupied _ _ _ _ _ _ _ hins) ?_
    rw [hcand2]
    exact pathLoop_of_free _ _ _ _ _ _ hget2
  have hc2 : create_with_author_and_comment env
      ⟨repo.cache.insert (candidatePath category (generate_filename t1))
         ⟨generate_recipe_id (candidatePath category (generate_filename t1)),
          candidatePath category (generate_filename t1), t1, none, category, ()⟩,
       repo.storage.write_file (candidatePath category (generate_filename t1)) c1⟩
      c2 category =
      (.ok ⟨candidatePath category (stripCook (generate_filename t1) ++ "-2.cook"),
            generate_filename t2, t2, none, category, c2⟩,
       ⟨(repo.cache.insert (candidatePath category (generate_filename t1))
           ⟨generate_recipe_id (candidatePath category (generate_filename t1)),
            candidatePath category (generate_filename t1), t1, none, category, ()⟩).insert
          (candidatePath category (stripCook (generate_filename t1) ++ "-2.cook"))
          ⟨generate_recipe_id
             (candidatePath category (stripCook (generate_filename t1) ++ "-2.cook")),
           candidatePath category (stripCook (generate_filename t1) ++ "-2.cook"),
           t2, none, category, ()⟩,
        (repo.storage.write_file (candidatePath category (generate_filename t1)) c1).write_file
          (candidatePath category (stripCook (generate_filename t1) ++ "-2.cook")) c2⟩,
       [Event.storageWrite
          (candidatePath category (stripCook (generate_filename t1) ++ "-2.cook")),
        Event.indexInsert
          (candidatePath category (stripCook (generate_filename t1) ++ "-2.cook"))]) := by
    simp only [create_with_author_and_comment, h2, hp2, hgen2]
  refine ⟨_, _, _, _, _, _, hc1, hc2, rfl, ?_, ?_⟩
  · simp only [hq, hp1eq, hstrip2]
  · simp only [hq, hp1eq]
    exact hne

theorem claim_c2_witness :
    ∃ r1 repo1 evs1 r2 repo2 evs2,
      create_with_author_and_comment envAccept emptyRepo
        "---\ntitle: Cake\n---\nOne." (some "desserts") = (.ok r1, repo1, evs1) ∧
      create_with_author_and_comment envAccept repo1
        "---\ntitle: CAKE\n---\nTwo." (some "desserts") = (.ok r2, repo2, evs2) ∧
      r1.git_path = candidatePath (some "desserts") (generate_filename "Cake") ∧
      r2.git_path = stripCook r1.git_path ++ "-2.cook" ∧
      r1.git_path ≠ r2.git_path :=
  claim_c2_collision_appends_suffix envAccept emptyRepo
    "---\ntitle: Cake\n---\nOne." "---\ntitle: CAKE\n---\nTwo."
    (some "desserts") "Cake" "CAKE" rfl rfl rfl rfl rfl rfl rfl

/-! ## Claim C4 — empty-string category at the repository boundary -/

/-- Claim C4 counterexample: at the repository level the empty-string
category is not equivalent to no category: the resolved path gains a double
slash and the returned record carries the empty-string category. -/
theorem claim_c4_counterexample :
    (create_with_author_and_comment envAccept emptyRepo
      "---\ntitle: Cake\n---\nMix." (some "")).1 =
      .ok ⟨"recipes//cake.cook", "cake.cook", "Cake", none, some "",
           "---\ntitle: Cake\n---\nMix."⟩ ∧
    (create_with_author_and_comment envAccept emptyRepo
      "---\ntitle: Cake\n---\nMix." none).1 =
      .ok ⟨"recipes/cake.cook", "cake.cook", "Cake", none, none,
           "---\ntitle: Cake\n---\nMix."⟩ ∧
    ("recipes//cake.cook" : String) ≠ "recipes/cake.cook" ∧
    (some "" : Option String) ≠ none :=
  ⟨rfl, rfl, by decide, by decide⟩

/-- Claim C4 amended: supplying the empty string as the category to the
repository create is not an error, but it is not equivalent to supplying no
category: the resolved path is `recipes//` followed by the filename and the
record carries category `some ""`, whereas no category resolves to
`recipes/` with the category absent (the empty-string-to-none normalisation
lives in the HTTP layer, outside the repository). -/
theorem claim_c4_empty_category_not_root (env : Env) (repo : RecipeRepository)
    (content t : String)
    (ht : extract_recipe_title content = .ok t)
    (hp : env.parse_recipe content t = .ok ())
    (hfree1 : repo.cache.get ("recipes//" ++ generate_filename t) = none)
    (hfree2 : repo.cache.get ("recipes/" ++ generate_filename t) = none) :
    ∃ r1 repo1 evs1 r2 repo2 evs2,
      create_with_author_and_comment env repo content (some "") = (.ok r1, repo1, evs1) ∧
      create_with_author_and_comment env repo content none = (.ok r2, repo2, evs2) ∧
      r1.git_path = "recipes//" ++ generate_filename t ∧
      r2.git_path = "recipes/" ++ generate_filename t ∧
      r1.category = some "" ∧ r2.category = none ∧
      r1.git_path ≠ r2.git_path := by
  have hcand1 : candidatePath (some "") (generate_filename t) =
      "recipes//" ++ generate_filename t := by
    apply strEq_of_data
    simp [candidatePath, strData_append]
  have hcand2 : candidatePath none (generate_filename t) =
      "recipes/" ++ generate_filename t := rfl
  have hgen1 : generate_git_path_from_filename repo.cache (generate_filename t) (some "") =
      "recipes//" ++ generate_filename t := by
    unfold generate_git_path_from_filename
    rw [hcand1]
    exact pathLoop_of_free _ _ _ _ _ _ hfree1
  have hgen2 : generate_git_path_from_filename repo.cache (generate_filename t) none =
      "recipes/" ++ generate_filename t := by
    unfold generate_git_path_from_filename
    rw [hcand2]
    exact pathLoop_of_free _ _ _ _ _ _ hfree2
  have hc1 : create_with_author_and_comment env repo content (some "") =
      (.ok ⟨"recipes//" ++ generate_filename t, generate_filename t, t, none, some "",
            content⟩,
       ⟨repo.cache.insert ("recipes//" ++ generate_filename t)
          ⟨generate_recipe_id ("recipes//" ++ generate_filename t),
           "recipes//" ++ generate_filename t, t, none, some "", ()⟩,
        repo.storage.write_file ("recipes//" ++ generate_filename t) content⟩,
       [Event.storageWrite ("recipes//" ++ generate_filename t),
        Event.indexInsert ("recipes//" ++ generate_filename t)]) := by
    simp only [create_with_author_and_comment, ht, hp, hgen1]
  have hc2 : create_with_author_and_comment env repo content none =
      (.ok ⟨"recipes/" ++ generate_filename t, generate_filename t, t, none, none,
            content⟩,
       ⟨repo.cache.insert ("recipes/" ++ generate_filename t)
          ⟨generate_recipe_id ("recipes/" ++ generate_filename t),
           "recipes/" ++ generate_filename t, t, none, none, ()⟩,
        repo.storage.write_file ("recipes/" ++ generate_filename t) content⟩,
       [Event.storageWrite ("recipes/" ++ generate_filename t),
        Event.indexInsert ("recipes/" ++ generate_filename t)]) := by
    simp only [create_with_author_and_comment, ht, hp, hgen2]
  refine ⟨_, _, _, _, _, _, hc1, hc2, rfl, rfl, rfl, rfl, ?_⟩
  apply strNe_of_len
  simp [strData_append]

theorem claim_c4_amended_witness :
    ∃ r1 repo1 evs1 r2 repo2 evs2,
      create_with_author_and_comment envAccept emptyRepo
        "---\ntitle: Cake\n---\nMix." (some "") = (.ok r1, repo1, evs1) ∧
      create_with_author_and_comment envAccept emptyRepo
        "---\ntitle: Cake\n---\nMix." none = (.ok r2, repo2, evs2) ∧
      r1.git_path = "recipes//" ++ generate_filename "Cake" ∧
      r2.git_path = "recipes/" ++ generate_filename "Cake" ∧
      r1.category = some "" ∧ r2.category = none ∧
      r1.git_path ≠ r2.git_path :=
  claim_c4_empty_category_not_root envAccept emptyRepo
    "---\ntitle: Cake\n---\nMix." "Cake" rfl rfl rfl rfl

/-! ## Claim C5 — the effective-title rule of update -/

/-- Claim C5 counterexample: with no new content but a name argument, the
resulting title is the name argument, not the previous cached title. -/
theorem claim_c5_counterexample :
    ((create_with_author_and_comment envAccept emptyRepo
        "---\ntitle: Alpha\n---\nBody." none).2.1.cache.get
        "recipes/alpha.cook").map CachedRecipe.name = some "Alpha" ∧
    (update_with_author_and_comment envAccept
      (create_with_author_and_comment envAccept emptyRepo
        "---\ntitle: Alpha\n---\nBody." none).2.1
      "recipes/alpha.cook" (some "Bravo") none none).1 =
      .ok ⟨"recipes/bravo.cook", "bravo.cook", "Bravo", none, none,
           "---\ntitle: Alpha\n---\nBody."⟩ ∧
    ("Bravo" : String) ≠ "Alpha" :=
  ⟨rfl, rfl, by decide⟩

/-- Claim C5 amended: the effective new title of an update is the title
extracted from the new content when new content is given (failing with a
ValidationError and leaving the state unchanged when extraction fails),
otherwise the provided name argument when one is given, otherwise the
current cached title — in particular, when neither new content nor a name is
given, the resulting title equals the prior one. -/
theorem claim_c5_update_title_priority (env : Env) (repo : RecipeRepository)
    (git_path : String) (nm : Option String) (content : Option String)
    (category : Option (Option String)) (current : CachedRecipe)
    (hcur : repo.cache.get git_path = some current) :
    (∀ c cc e, content = some c → repo.storage.read_file git_path = .ok cc →
       extract_recipe_title c = .error e →
       update_with_author_and_comment env repo git_path nm content category =
         (.error (.validation ("Invalid recipe content: " ++ e)), repo, [])) ∧
    (∀ r repo1 evs,
       update_with_author_and_comment env repo git_path nm content category =
         (.ok r, repo1, evs) →
       (match content with
        | some c => extract_recipe_title c = .ok r.name
        | none => r.name = nm.getD current.name)) := by
  constructor
  · intro c cc e hc hread hext
    subst hc
    simp [update_with_author_and_comment, hcur, hread, hext]
  · intro r repo1 evs h
    cases content with
    | some c =>
      simp only [update_with_author_and_comment, hcur] at h
      split at h
      · simp at h
      · split at h
        · simp at h
        · split at h
          · simp at h
          · split at h
            · simp at h
            · split at h
              · simp at h
              · rename_i x4 cc hread x3 t hext x2 u1 hp1 x1 fc hfc x0 u0 hp0
                simp only [Prod.mk.injEq, Except.ok.injEq] at h
                obtain ⟨h1, _h2, _h3⟩ := h
                subst h1
                simpa using hext
    | none =>
      simp only [update_with_author_and_comment, hcur] at h
      split at h
      · simp at h
      · split at h
        · simp at h
        · split at h
          · simp at h
          · simp only [Prod.mk.injEq, Except.ok.injEq] at h
            obtain ⟨h1, _h2, _h3⟩ := h
            subst h1
            simp

theorem claim_c5_witness :
    (∀ c cc e, (none : Option String) = some c →
       (create_with_author_and_comment envAccept emptyRepo
         "---\ntitle: Alpha\n---\nBody." none).2.1.storage.read_file
         "recipes/alpha.cook" = .ok cc →
       extract_recipe_title c = .error e →
       update_with_author_and_comment envAccept
         (create_with_author_and_comment envAccept emptyRepo
           "---\ntitle: Alpha\n---\nBody." none).2.1
         "recipes/alpha.cook" none none none =
         (.error (.validation ("Invalid recipe content: " ++ e)),
          (create_with_author_and_comment envAccept emptyRepo
            "---\ntitle: Alpha\n---\nBody." none).2.1, [])) ∧
    (∀ r repo1 evs,
       update_with_author_and_comment envAccept
         (create_with_author_and_comment envAccept emptyRepo
           "---\ntitle: Alpha\n---\nBody." none).2.1
         "recipes/alpha.cook" none none none = (.ok r, repo1, evs) →
       (match (none : Option String) with
        | some c => extract_recipe_title c = .ok r.name
        | none => r.name = (none : Option String).getD
            (⟨generate_recipe_id "recipes/alpha.cook", "recipes/alpha.cook", "Alpha",
              none, none, ()⟩ : CachedRecipe).name)) :=
  claim_c5_update_title_priority envAccept
    (create_with_author_and_comment envAccept emptyRepo
      "---\ntitle: Alpha\n---\nBody." none).2.1
    "recipes/alpha.cook" none none none
    ⟨generate_recipe_id "recipes/alpha.cook", "recipes/alpha.cook", "Alpha",
     none, none, ()⟩ rfl

/-! ## Claim C8 — rebuild quarantines corrupt files and keeps valid ones -/

/-- Claim C8: rebuilding over a storage state holding one file whose metadata
block is invalid (title extraction fails and the parser rejects it under the
path-derived fallback name) and one valid file succeeds without propagating
any error, and the resulting index exposes exactly the valid file. -/
theorem claim_c8_rebuild_skips_corrupt (env : Env) (cache : RecipeIndex)
    (p1 p2 corrupt valid t e1 e2 : String)
    (hne : p1 ≠ p2)
    (hcook1 : strEnds p1 ".cook" = true) (hcook2 : strEnds p2 ".cook" = true)
    (hext1 : extract_recipe_title corrupt = .error e1)
    (hparse1 : env.parse_recipe corrupt (path_to_name p1) = .error e2)
    (hext2 : extract_recipe_title valid = .ok t)
    (hparse2 : env.parse_recipe valid t = .ok ()) :
    rebuild_from_storage env ⟨cache, ⟨[(p1, corrupt), (p2, valid)]⟩⟩ =
      (.ok (),
       ⟨⟨[(p2, ⟨generate_recipe_id p2, p2, t, none, extract_category_from_path p2, ()⟩)],
         [(generate_recipe_id p2, p2)]⟩,
        ⟨[(p1, corrupt), (p2, valid)]⟩⟩, []) := by
  have hne21 : (p1 == p2) = false := beq_eq_false_iff_ne.mpr hne
  simp [rebuild_from_storage, DiskStorage.discover_files, hcook1, hcook2,
        rebuildStep, DiskStorage.read_file, List.find?_cons, hne21,
        hext1, hparse1, hext2, hparse2, RecipeIndex.insert, RecipeIndex.clear]

theorem claim_c8_witness :
    rebuild_from_storage
      ⟨fun c _ => if c == "---\nbroken front matter\n---\nStep." then
          .error "cooklang parse failure" else .ok ()⟩
      ⟨⟨[], []⟩,
       ⟨[("recipes/broken.cook", "---\nbroken front matter\n---\nStep."),
         ("recipes/good.cook", "---\ntitle: Good\n---\nStep.")]⟩⟩ =
      (.ok (),
       ⟨⟨[("recipes/good.cook",
           ⟨generate_recipe_id "recipes/good.cook", "recipes/good.cook", "Good",
            none, extract_category_from_path "recipes/good.cook", ()⟩)],
         [(generate_recipe_id "recipes/good.cook", "recipes/good.cook")]⟩,
        ⟨[("recipes/broken.cook", "---\nbroken front matter\n---\nStep."),
          ("recipes/good.cook", "---\ntitle: Good\n---\nStep.")]⟩⟩, []) :=
  claim_c8_rebuild_skips_corrupt
    ⟨fun c _ => if c == "---\nbroken front matter\n---\nStep." then
        .error "cooklang parse failure" else .ok ()⟩
    ⟨[], []⟩ "recipes/broken.cook" "recipes/good.cook"
    "---\nbroken front matter\n---\nStep." "---\ntitle: Good\n---\nStep." "Good"
    "Invalid YAML front matter" "cooklang parse failure"
    (by decide) rfl rfl rfl rfl rfl rfl

/-! ## Claim C10 — repository operations, reachable states, and the
id/reverse-map invariant -/

/-- The repository operations reachable through the public mutating and
reading surface. -/
inductive Op where
  | createOp (content : String) (category : Option String)
  | readOp (git_path : String)
  | updateOp (git_path : String) (nm : Option String) (content : Option String)
      (category : Option (Option String))
  | deleteOp (git_path : String)
  | rebuildOp

/-- Apply one operation, keeping only the post state. -/
def applyOp (env : Env) (repo : RecipeRepository) : Op → RecipeRepository
  | .createOp content category =>
    (create_with_author_and_comment env repo content category).2.1
  | .readOp p => (repo.read p).2.1
  | .updateOp p nm c cat => (update_with_author_and_comment env repo p nm c cat).2.1
  | .deleteOp p => (delete_with_author_and_comment repo p).2.1
  | .rebuildOp => (rebuild_from_storage env repo).2.1

/-- Run a list of operations from the empty repository. -/
def runOps (env : Env) (ops : List Op) : RecipeRepository :=
  ops.foldl (applyOp env) emptyRepo

/-- The reverse-map pair contributed by a forward entry. -/
def recPair (pr : String × CachedRecipe) : String × String := (pr.2.recipe_id, pr.1)

/-- The property asserted by the claim: every cached record's id is the first
twelve hexadecimal characters of the SHA-256 of its path, and the reverse map
holds exactly one entry per forward record, mapping that record's id back to
that record's path. -/
def ReverseExact (r : RecipeRepository) : Prop :=
  (∀ pr ∈ r.cache.recipes, pr.2.recipe_id = generate_recipe_id pr.1) ∧
  r.cache.id_to_path.Perm (r.cache.recipes.map recPair)

/-- Claim C10 counterexample: two creates whose resolved paths collide on the
truncated 48-bit id (`recipes/t4701111.cook` and `recipes/t25345689.cook`
both hash to `22daed6d7625`) leave two forward records but a single reverse
entry, so the reverse map is not in bijection with the forward map. -/
theorem claim_c10_counterexample :
    ¬ ReverseExact (runOps envAccept
      [Op.createOp "---\ntitle: t4701111\n---\nStep." none,
       Op.createOp "---\ntitle: t25345689\n---\nStep." none]) := by
  intro h
  have hlen := h.2.length_eq
  revert hlen
  decide

/-! ### The amended invariant, under collision-freedom of the trace -/

/-- Truncated ids of the live records. -/
def cacheIds (c : RecipeIndex) : List String :=
  c.recipes.map (fun pr => generate_recipe_id pr.1)

/-- Well-formedness of the in-memory index: distinct path keys, every record
carrying its own path and the hash-derived id, and a reverse map in exact
correspondence with the forward map. -/
def CacheInv (c : RecipeIndex) : Prop :=
  (c.recipes.map Prod.fst).Nodup ∧
  (∀ pr ∈ c.recipes, pr.2.git_path = pr.1 ∧ pr.2.recipe_id = generate_recipe_id pr.1) ∧
  c.id_to_path.Perm (c.recipes.map recPair)

/-- Full state invariant: distinct storage keys plus index well-formedness. -/
def IndexInv (r : RecipeRepository) : Prop :=
  (r.storage.files.map Prod.fst).Nodup ∧ CacheInv r.cache

/-- The truncated ids of the live records are pairwise distinct. -/
def idsNodup (r : RecipeRepository) : Prop := (cacheIds r.cache).Nodup

/-- Collision-freedom of a trace: every state along it has pairwise-distinct
truncated ids. -/
def CollisionFree (env : Env) (ops : List Op) : Prop :=
  ∀ pre suf, ops = pre ++ suf → idsNodup (runOps env pre)

/-! ### Generic association-list lemmas -/

theorem nodup_keys_insert {α : Type} (l : List (String × α)) (p : String) (x : α)
    (h : (l.map Prod.fst).Nodup) :
    ((((p, x) :: l.filter (fun pr => pr.1 != p))).map Prod.fst).Nodup := by
  simp only [List.map_cons, List.nodup_cons]
  refine ⟨?_, ((List.filter_sublist l).map Prod.fst).nodup h⟩
  intro hmem
  obtain ⟨pr, hpr, he⟩ := List.mem_map.mp hmem
  exact bne_iff_ne.mp (List.mem_filter.mp hpr).2 he

theorem filter_eq_self_of_keys_ne {α : Type} (l : List (String × α)) (p : String)
    (h : ∀ pr ∈ l, pr.1 ≠ p) : l.filter (fun pr => pr.1 != p) = l :=
  List.filter_eq_self.mpr (fun pr hpr => bne_iff_ne.mpr (h pr hpr))

theorem storage_write_nodup (st : DiskStorage) (p c : String)
    (h : (st.files.map Prod.fst).Nodup) :
    (((st.write_file p c).files).map Prod.fst).Nodup :=
  nodup_keys_insert st.files p c h

theorem storage_delete_nodup (st : DiskStorage) (p : String)
    (h : (st.files.map Prod.fst).Nodup) :
    (((st.delete_file p).files).map Prod.fst).Nodup :=
  ((List.filter_sublist st.files).map Prod.fst).nodup h

theorem bne_true_of_ne {x y : String} (h : x ≠ y) : (x != y) = true :=
  bne_iff_ne.mpr h

theorem bne_false_of_eq {x y : String} (h : x = y) : (x != y) = false := by
  simp [h]

theorem cacheInv_insert (c : RecipeIndex) (p : String) (rec : CachedRecipe)
    (hInv : CacheInv c)
    (hrec1 : rec.git_path = p) (hrec2 : rec.recipe_id = generate_recipe_id p)
    (hpost : (cacheIds (c.insert p rec)).Nodup) :
    CacheInv (c.insert p rec) := by
  obtain ⟨hkeys, hfields, hperm⟩ := hInv
  refine ⟨nodup_keys_insert _ _ _ hkeys, ?_, ?_⟩
  · intro pr hpr
    rcases List.mem_cons.mp hpr with rfl | hm
    · exact ⟨hrec1, hrec2⟩
    · exact hfields pr (List.mem_filter.mp hm).1
  · simp only [RecipeIndex.insert, List.map_cons, recPair]
    apply List.Perm.cons
    have h1 := hperm.filter (fun x => x.1 != rec.recipe_id)
    rw [List.filter_map] at h1
    have hcong : c.recipes.filter ((fun x => x.1 != rec.recipe_id) ∘ recPair) =
        c.recipes.filter (fun x => x.1 != p) := by
      apply List.filter_congr
      intro pr hpr
      have hid := (hfields pr hpr).2
      simp only [Function.comp, recPair, hid, hrec2]
      by_cases he : pr.1 = p
      · rw [bne_false_of_eq he, bne_false_of_eq (congrArg generate_recipe_id he)]
      · have hidne : generate_recipe_id pr.1 ≠ generate_recipe_id p := by
          intro hc
          have hmem : pr ∈ c.recipes.filter (fun x => x.1 != p) :=
            List.mem_filter.mpr ⟨hpr, bne_true_of_ne he⟩
          have hpost2 := hpost
          simp only [cacheIds, RecipeIndex.insert, List.map_cons,
                     List.nodup_cons] at hpost2
          exact hpost2.1 (hc ▸ List.mem_map_of_mem _ hmem)
        rw [bne_true_of_ne he, bne_true_of_ne hidne]
    rw [hcong] at h1
    exact h1

theorem cacheInv_remove (c : RecipeIndex) (p : String)
    (hInv : CacheInv c) (hpre : (cacheIds c).Nodup) :
    CacheInv (c.remove p).2 := by
  obtain ⟨hkeys, hfields, hperm⟩ := hInv
  unfold RecipeIndex.remove
  cases hfind : c.recipes.find? (fun pr => pr.1 == p) with
  | none => exact ⟨hkeys, hfields, hperm⟩
  | some pr0 =>
    have hpr0mem := List.mem_of_find?_eq_some hfind
    have hpr0key : pr0.1 = p := by
      have := List.find?_some hfind
      simpa using this
    have hpr0id : pr0.2.recipe_id = generate_recipe_id p := by
      rw [← hpr0key]
      exact (hfields pr0 hpr0mem).2
    refine ⟨((List.filter_sublist _).map Prod.fst).nodup hkeys, ?_, ?_⟩
    · intro pr hpr
      exact hfields pr (List.mem_filter.mp hpr).1
    · have h1 := hperm.filter (fun x => x.1 != pr0.2.recipe_id)
      rw [List.filter_map] at h1
      have hcong : c.recipes.filter ((fun x => x.1 != pr0.2.recipe_id) ∘ recPair) =
          c.recipes.filter (fun x => x.1 != p) := by
        apply List.filter_congr
        intro pr hpr
        have hid := (hfields pr hpr).2
        simp only [Function.comp, recPair, hid, hpr0id]
        by_cases he : pr.1 = p
        · rw [bne_false_of_eq he, bne_false_of_eq (congrArg generate_recipe_id he)]
        · have hidne : generate_recipe_id pr.1 ≠ generate_recipe_id p := by
            intro hc
            rw [← hpr0key] at hc
            have heq := List.inj_on_of_nodup_map hpre hpr hpr0mem hc
            exact he (by rw [heq, hpr0key])
          rw [bne_true_of_ne he, bne_true_of_ne hidne]
      rw [hcong] at h1
      exact h1

theorem cacheIds_remove_nodup (c : RecipeIndex) (p : String)
    (hpre : (cacheIds c).Nodup) : (cacheIds (c.remove p).2).Nodup := by
  unfold RecipeIndex.remove
  cases hfind : c.recipes.find? (fun pr => pr.1 == p) with
  | none => exact hpre
  | some pr0 => exact ((List.filter_sublist _).map _).nodup hpre

/-! ### State characterisation of each operation -/

theorem create_state (env : Env) (repo : RecipeRepository) (c : String)
    (cat : Option String) :
    (create_with_author_and_comment env repo c cat).2.1 = repo ∨
    (∃ gp, (create_with_author_and_comment env repo c cat).2.1 =
       { repo with storage := repo.storage.write_file gp c }) ∨
    (∃ gp rec, rec.git_path = gp ∧ rec.recipe_id = generate_recipe_id gp ∧
       (create_with_author_and_comment env repo c cat).2.1 =
         ⟨repo.cache.insert gp rec, repo.storage.write_file gp c⟩) := by
  unfold create_with_author_and_comment
  split
  · left; rfl
  · split
    · left; rfl
    · split
      · right; left; exact ⟨_, rfl⟩
      · right; right
        refine ⟨_, _, ?_, ?_, rfl⟩ <;> rfl

theorem read_state (repo : RecipeRepository) (p : String) :
    (repo.read p).2.1 = repo := by
  unfold RecipeRepository.read
  split
  · rfl
  · split <;> rfl

theorem delete_state (repo : RecipeRepository) (p : String) :
    (delete_with_author_and_comment repo p).2.1 = repo ∨
    (delete_with_author_and_comment repo p).2.1 =
      ⟨(repo.cache.remove p).2, repo.storage.delete_file p⟩ := by
  unfold delete_with_author_and_comment
  split
  · left; rfl
  · right; rfl

theorem update_state (env : Env) (repo : RecipeRepository) (git_path : String)
    (nm : Option String) (content : Option String) (category : Option (Option String)) :
    (update_with_author_and_comment env repo git_path nm content category).2.1 = repo ∨
    (∃ st : DiskStorage,
      ((repo.storage.files.map Prod.fst).Nodup → (st.files.map Prod.fst).Nodup) ∧
      (update_with_author_and_comment env repo git_path nm content category).2.1 =
        { repo with storage := st }) ∨
    (∃ np rec st c1,
      rec.git_path = np ∧ rec.recipe_id = generate_recipe_id np ∧
      ((repo.storage.files.map Prod.fst).Nodup → (st.files.map Prod.fst).Nodup) ∧
      (c1 = repo.cache ∨ c1 = (repo.cache.remove git_path).2) ∧
      (update_with_author_and_comment env repo git_path nm content category).2.1 =
        ⟨c1.insert np rec, st⟩) := by
  unfold update_with_author_and_comment
  split
  · left; rfl
  · split
    · left; rfl
    · split
      · left; rfl
      · split
        · split
          · left; rfl
          · dsimp only
            split
            · right; left
              refine ⟨_, ?_, rfl⟩
              intro h
              repeat' split
              all_goals first
                | exact h
                | exact storage_write_nodup _ _ _ h
                | exact storage_delete_nodup _ _ (storage_write_nodup _ _ _ h)
            · split
              · right; left
                refine ⟨_, ?_, rfl⟩
                intro h
                repeat' split
                all_goals first
                  | exact h
                  | exact storage_write_nodup _ _ _ h
                  | exact storage_delete_nodup _ _ (storage_write_nodup _ _ _ h)
              · right; right
                refine ⟨_, _, _, _, ?_, ?_, ?_, ?_, rfl⟩
                · rfl
                · rfl
                · intro h
                  repeat' split
                  all_goals first
                    | exact h
                    | exact storage_write_nodup _ _ _ h
                    | exact storage_delete_nodup _ _ (storage_write_nodup _ _ _ h)
                · repeat' split
                  all_goals first
                    | (left; rfl)
                    | (right; rfl)
        · split
          · left; rfl
          · dsimp only
            split
            · right; left
              refine ⟨_, ?_, rfl⟩
              intro h
              repeat' split
              all_goals first
                | exact h
                | exact storage_write_nodup _ _ _ h
                | exact storage_delete_nodup _ _ (storage_write_nodup _ _ _ h)
            · split
              · right; left
                refine ⟨_, ?_, rfl⟩
                intro h
                repeat' split
                all_goals first
                  | exact h
                  | exact storage_write_nodup _ _ _ h
                  | exact storage_delete_nodup _ _ (storage_write_nodup _ _ _ h)
              · right; right
                refine ⟨_, _, _, _, ?_, ?_, ?_, ?_, rfl⟩
                · rfl
                · rfl
                · intro h
                  repeat' split
                  all_goals first
                    | exact h
                    | exact storage_write_nodup _ _ _ h
                    | exact storage_delete_nodup _ _ (storage_write_nodup _ _ _ h)
                · repeat' split
                  all_goals first
                    | (left; rfl)
                    | (right; rfl)

/-! ### Invariant preservation for create, read, update, delete -/

theorem indexInv_create (env : Env) (repo : RecipeRepository) (c : String)
    (cat : Option String) (hInv : IndexInv repo)
    (hpost : idsNodup ((create_with_author_and_comment env repo c cat).2.1)) :
    IndexInv ((create_with_author_and_comment env repo c cat).2.1) := by
  rcases create_state env repo c cat with h | ⟨gp, h⟩ | ⟨gp, rec, h1, h2, h⟩ <;>
    rw [h] at hpost ⊢
  · exact hInv
  · exact ⟨storage_write_nodup _ _ _ hInv.1, hInv.2⟩
  · exact ⟨storage_write_nodup _ _ _ hInv.1,
           cacheInv_insert _ _ _ hInv.2 h1 h2 hpost⟩

theorem indexInv_delete (repo : RecipeRepository) (p : String)
    (hInv : IndexInv repo) (hpre : idsNodup repo) :
    IndexInv ((delete_with_author_and_comment repo p).2.1) := by
  rcases delete_state repo p with h | h <;> rw [h]
  · exact hInv
  · exact ⟨storage_delete_nodup _ _ hInv.1, cacheInv_remove _ _ hInv.2 hpre⟩

theorem indexInv_update (env : Env) (repo : RecipeRepository) (p : String)
    (nm : Option String) (c : Option String) (cat : Option (Option String))
    (hInv : IndexInv repo) (hpre : idsNodup repo)
    (hpost : idsNodup ((update_with_author_and_comment env repo p nm c cat).2.1)) :
    IndexInv ((update_with_author_and_comment env repo p nm c cat).2.1) := by
  rcases update_state env repo p nm c cat with h | ⟨st, hok, h⟩ |
    ⟨np, rec, st, c1, h1, h2, hok, hc1, h⟩ <;> rw [h] at hpost ⊢
  · exact hInv
  · exact ⟨hok hInv.1, hInv.2⟩
  · refine ⟨hok hInv.1, ?_⟩
    have hc1inv : CacheInv c1 := by
      rcases hc1 with rfl | rfl
      · exact hInv.2
      · exact cacheInv_remove _ _ hInv.2 hpre
    exact cacheInv_insert _ _ _ hc1inv h1 h2 hpost

/-! ### Invariant preservation for rebuild -/

/-- The record (if any) that rebuild derives from one stored path. -/
def rebuildOut (env : Env) (st : DiskStorage) (git_path : String) : Option CachedRecipe :=
  match st.read_file git_path with
  | .error _ => none
  | .ok content =>
    match extract_recipe_title content with
    | .ok title =>
      match env.parse_recipe content title with
      | .ok _ => some ⟨generate_recipe_id git_path, git_path, title, none,
          extract_category_from_path git_path, ()⟩
      | .error _ => none
    | .error _ =>
      match env.parse_recipe content (path_to_name git_path) with
      | .ok _ => some ⟨generate_recipe_id git_path, git_path, path_to_name git_path,
          none, extract_category_from_path git_path, ()⟩
      | .error _ => none

theorem rebuildStep_eq (env : Env) (st : DiskStorage) (cache : RecipeIndex)
    (p : String) :
    rebuildStep env st cache p =
      match rebuildOut env st p with
      | some rec => cache.insert p rec
      | none => cache := by
  simp only [rebuildStep, rebuildOut]
  cases hread : st.read_file p with
  | error e => rfl
  | ok content =>
    cases hext : extract_recipe_title content with
    | ok title =>
      cases hp : env.parse_recipe content title with
      | ok u => simp [hext, hp]
      | error e => simp [hext, hp]
    | error e1 =>
      cases hp : env.parse_recipe content (path_to_name p) with
      | ok u => simp [hext, hp]
      | error e => simp [hext, hp]

theorem rebuildOut_fields (env : Env) (st : DiskStorage) (p : String)
    (rec : CachedRecipe) (h : rebuildOut env st p = some rec) :
    rec.git_path = p ∧ rec.recipe_id = generate_recipe_id p := by
  unfold rebuildOut at h
  split at h
  · simp at h
  · split at h
    · split at h
      · simp only [Option.some.injEq] at h
        subst h
        exact ⟨rfl, rfl⟩
      · simp at h
    · split at h
      · simp only [Option.some.injEq] at h
        subst h
        exact ⟨rfl, rfl⟩
      · simp at h

/-- The forward entry contributed by one rebuilt path. -/
def keepRec (env : Env) (st : DiskStorage) (p : String) : Option (String × CachedRecipe) :=
  (rebuildOut env st p).map (fun rec => (p, rec))

theorem keepRec_fst_sublist (env : Env) (st : DiskStorage) :
    ∀ files : List String,
      ((files.filterMap (keepRec env st)).map Prod.fst).Sublist files := by
  intro files
  induction files with
  | nil => simp
  | cons p rest ih =>
    rw [List.filterMap_cons]
    cases hout : keepRec env st p with
    | none => exact ih.cons p
    | some pr =>
      have hfst : pr.1 = p := by
        unfold keepRec at hout
        cases ho : rebuildOut env st p with
        | none => rw [ho] at hout; simp at hout
        | some rec =>
          rw [ho] at hout
          have hpr : (p, rec) = pr := by simpa using hout
          rw [← hpr]
      rw [List.map_cons, hfst]
      exact ih.cons₂ p

theorem keepRec_fields (env : Env) (st : DiskStorage) (files : List String)
    (pr : String × CachedRecipe) (h : pr ∈ files.filterMap (keepRec env st)) :
    pr.2.git_path = pr.1 ∧ pr.2.recipe_id = generate_recipe_id pr.1 := by
  obtain ⟨a, _ha, hk⟩ := List.mem_filterMap.mp h
  unfold keepRec at hk
  cases ho : rebuildOut env st a with
  | none => rw [ho] at hk; simp at hk
  | some rec =>
    rw [ho] at hk
    have hpr : (a, rec) = pr := by simpa using hk
    rw [← hpr]
    exact rebuildOut_fields env st a rec ho

theorem rebuild_fold_recipes (env : Env) (st : DiskStorage) :
    ∀ (files : List String) (acc : RecipeIndex), files.Nodup →
      (∀ p ∈ files, ∀ pr ∈ acc.recipes, pr.1 ≠ p) →
      (files.foldl (rebuildStep env st) acc).recipes =
        (files.filterMap (keepRec env st)).reverse ++ acc.recipes := by
  intro files
  induction files with
  | nil => intro acc _ _; simp
  | cons p rest ih =>
    intro acc hnd hdisj
    rw [List.foldl_cons, rebuildStep_eq, List.filterMap_cons]
    cases hout : rebuildOut env st p with
    | none =>
      have hkeep : keepRec env st p = none := by simp [keepRec, hout]
      simp only [hkeep]
      exact ih acc (List.Nodup.of_cons hnd)
        (fun q hq pr hpr => hdisj q (List.mem_cons_of_mem p hq) pr hpr)
    | some rec =>
      have hkeep : keepRec env st p = some (p, rec) := by simp [keepRec, hout]
      have hfresh : acc.recipes.filter (fun pr => pr.1 != p) = acc.recipes :=
        filter_eq_self_of_keys_ne _ _
          (fun pr hpr => hdisj p (List.mem_cons_self p rest) pr hpr)
      have hrec : (acc.insert p rec).recipes = (p, rec) :: acc.recipes := by
        simp [RecipeIndex.insert, hfresh]
      have hdisj2 : ∀ q ∈ rest, ∀ pr ∈ (acc.insert p rec).recipes, pr.1 ≠ q := by
        intro q hq pr hpr
        rw [hrec] at hpr
        rcases List.mem_cons.mp hpr with rfl | hm
        · exact fun e => (List.nodup_cons.mp hnd).1 ((show q = p from e.symm) ▸ hq)
        · exact hdisj q (List.mem_cons_of_mem p hq) pr hm
      simp only [hkeep]
      rw [ih (acc.insert p rec) (List.Nodup.of_cons hnd) hdisj2, hrec]
      simp

theorem rebuild_fold_ids (env : Env) (st : DiskStorage) :
    ∀ (files : List String) (acc : RecipeIndex),
      ((acc.id_to_path.map Prod.fst) ++
        (files.filterMap (keepRec env st)).map (fun pr => pr.2.recipe_id)).Nodup →
      (files.foldl (rebuildStep env st) acc).id_to_path =
        ((files.filterMap (keepRec env st)).map recPair).reverse ++ acc.id_to_path := by
  intro files
  induction files with
  | nil => intro acc _; simp
  | cons p rest ih =>
    intro acc hnd
    rw [List.foldl_cons, rebuildStep_eq]
    cases hout : rebuildOut env st p with
    | none =>
      have hkeep : keepRec env st p = none := by simp [keepRec, hout]
      simp only [List.filterMap_cons, hkeep]
      refine ih acc ?_
      simpa only [List.filterMap_cons, hkeep] using hnd
    | some rec =>
      have hkeep : keepRec env st p = some (p, rec) := by simp [keepRec, hout]
      simp only [List.filterMap_cons, hkeep] at hnd ⊢
      simp only [List.map_cons] at hnd
      have hnd3 := List.perm_middle.nodup hnd
      have hfreshid : ∀ pr ∈ acc.id_to_path, pr.1 ≠ rec.recipe_id := by
        intro pr hpr he
        exact (List.nodup_cons.mp hnd3).1
          (List.mem_append.mpr (Or.inl (he ▸ List.mem_map_of_mem Prod.fst hpr)))
      have hid : (acc.insert p rec).id_to_path = (rec.recipe_id, p) :: acc.id_to_path := by
        simp [RecipeIndex.insert, filter_eq_self_of_keys_ne _ _ hfreshid]
      have hndrest : (((acc.insert p rec).id_to_path.map Prod.fst) ++
          (rest.filterMap (keepRec env st)).map (fun pr => pr.2.recipe_id)).Nodup := by
        rw [hid]
        simpa using hnd3
      rw [ih (acc.insert p rec) hndrest, hid]
      simp [recPair]

theorem indexInv_rebuild (env : Env) (repo : RecipeRepository)
    (hInv : IndexInv repo)
    (hpost : idsNodup ((rebuild_from_storage env repo).2.1)) :
    IndexInv ((rebuild_from_storage env repo).2.1) := by
  obtain ⟨hst, _hcache⟩ := hInv
  have hfiles : (repo.storage.discover_files).Nodup := hst.filter _
  have hrec := rebuild_fold_recipes env repo.storage repo.storage.discover_files
    repo.cache.clear hfiles (by intro p _ pr hpr; simp [RecipeIndex.clear] at hpr)
  have hpost2 : ((repo.storage.discover_files.filterMap (keepRec env repo.storage)).map
      (fun pr => generate_recipe_id pr.1)).Nodup := by
    have h0 : ((repo.storage.discover_files.foldl (rebuildStep env repo.storage)
        repo.cache.clear).recipes.map (fun pr => generate_recipe_id pr.1)).Nodup := hpost
    rw [hrec] at h0
    simp only [RecipeIndex.clear, List.append_nil, List.map_reverse,
               List.nodup_reverse] at h0
    exact h0
  have hfieldsF := keepRec_fields env repo.storage repo.storage.discover_files
  have hmapeq : (repo.storage.discover_files.filterMap (keepRec env repo.storage)).map
      (fun pr => pr.2.recipe_id) =
      (repo.storage.discover_files.filterMap (keepRec env repo.storage)).map
      (fun pr => generate_recipe_id pr.1) :=
    List.map_congr_left (fun pr hpr => (hfieldsF pr hpr).2)
  have hids := rebuild_fold_ids env repo.storage repo.storage.discover_files
    repo.cache.clear (by
      simp only [RecipeIndex.clear, List.map_nil, List.nil_append, hmapeq]
      exact hpost2)
  refine ⟨hst, ?_, ?_, ?_⟩
  · have hthis : ((repo.storage.discover_files.foldl (rebuildStep env repo.storage)
        repo.cache.clear).recipes.map Prod.fst).Nodup := by
      rw [hrec]
      simp only [RecipeIndex.clear, List.append_nil, List.map_reverse, List.nodup_reverse]
      exact (keepRec_fst_sublist env repo.storage _).nodup hfiles
    exact hthis
  · have hthis : ∀ pr ∈ (repo.storage.discover_files.foldl (rebuildStep env repo.storage)
        repo.cache.clear).recipes,
        pr.2.git_path = pr.1 ∧ pr.2.recipe_id = generate_recipe_id pr.1 := by
      intro pr hpr
      rw [hrec] at hpr
      simp only [RecipeIndex.clear, List.append_nil, List.mem_reverse] at hpr
      exact hfieldsF pr hpr
    exact hthis
  · have hthis : (repo.storage.discover_files.foldl (rebuildStep env repo.storage)
        repo.cache.clear).id_to_path.Perm
        ((repo.storage.discover_files.foldl (rebuildStep env repo.storage)
          repo.cache.clear).recipes.map recPair) := by
      rw [hrec, hids]
      simp [RecipeIndex.clear, List.map_reverse]
    exact hthis

/-! ### The invariant along collision-free traces -/

theorem runOps_append_one (env : Env) (l : List Op) (a : Op) :
    runOps env (l ++ [a]) = applyOp env (runOps env l) a := by
  simp [runOps, List.foldl_append]

theorem indexInv_applyOp (env : Env) (s : RecipeRepository) (op : Op)
    (hInv : IndexInv s) (hpre : idsNodup s)
    (hpost : idsNodup (applyOp env s op)) : IndexInv (applyOp env s op) := by
  cases op with
  | createOp c cat => exact indexInv_create env s c cat hInv hpost
  | readOp p =>
    show IndexInv ((s.read p).2.1)
    rw [read_state]
    exact hInv
  | updateOp p nm c cat => exact indexInv_update env s p nm c cat hInv hpre hpost
  | deleteOp p => exact indexInv_delete s p hInv hpre
  | rebuildOp => exact indexInv_rebuild env s hInv hpost

theorem indexInv_emptyRepo : IndexInv emptyRepo :=
  ⟨by simp [emptyRepo], by simp [emptyRepo], by simp [emptyRepo], by simp [emptyRepo]⟩

theorem indexInv_runOps (env : Env) (ops : List Op) (hcf : CollisionFree env ops) :
    IndexInv (runOps env ops) := by
  induction ops using List.reverseRecOn with
  | nil => exact indexInv_emptyRepo
  | append_singleton l a ih =>
    have hcf2 : CollisionFree env l := fun pre suf he =>
      hcf pre (suf ++ [a]) (by rw [he, List.append_assoc])
    have hpre : idsNodup (runOps env l) := hcf l [a] rfl
    have hpost : idsNodup (runOps env (l ++ [a])) := hcf (l ++ [a]) [] (by simp)
    rw [runOps_append_one] at hpost ⊢
    exact indexInv_applyOp env _ a (ih hcf2) hpre hpost

/-- Claim C10 amended: in every repository state reachable from the empty
repository along a trace whose intermediate states never hold two live paths
with colliding truncated ids, every cached record's external id is the first
twelve hexadecimal characters of the SHA-256 hash of its canonical path, and
the reverse id-to-path map holds exactly one entry per forward record,
mapping that record's id back to that record's path. -/
theorem claim_c10_id_hash_and_reverse_exact (env : Env) (ops : List Op)
    (hcf : CollisionFree env ops) : ReverseExact (runOps env ops) := by
  obtain ⟨_hs, _hk, hf, hp⟩ := indexInv_runOps env ops hcf
  exact ⟨fun pr hm => (hf pr hm).2, hp⟩

theorem claim_c10_witness :
    ReverseExact (runOps envAccept
      [Op.createOp "---\ntitle: Alpha\n---\nBody." none]) :=
  claim_c10_id_hash_and_reverse_exact envAccept
    [Op.createOp "---\ntitle: Alpha\n---\nBody." none]
    (by
      intro pre suf h
      cases pre with
      | nil => simp [runOps, idsNodup, cacheIds, emptyRepo]
      | cons a pre2 =>
        cases pre2 with
        | nil =>
          injection h with h1 h2
          subst h1
          unfold idsNodup cacheIds
          decide
        | cons b pre3 =>
          have hlen := congrArg List.length h
          simp at hlen)

end CooklangStore
